import Mathlib

/-!
Verification of the oncology-medicine report dashboard's extraction and
normalization pipeline (shallow embedding of `src/scrapers/utils.py`,
`src/scrapers/nafdac.py`, `src/scrapers/fdausa.py`, `src/scrapers/base.py`
and `src/database.py`).

Modelling conventions:
* Python `str` is Lean `String`; `Optional[str]` is `Option String`.
* Python's `re` character classes `\s` / `\w` are modelled over ASCII
  (`Char.isWhitespace`, alphanumeric or underscore); all inputs handled by
  this repository are ASCII apart from the literal mojibake bytes of
  `extract_title`, which are embedded verbatim.
* Python `datetime` values are modelled by the `PyDateTime` structure.
* Fallible Python code (expressions that can raise) is modelled with
  `Except Unit`.
-/

namespace Dashboard

/-- Python `datetime.datetime` restricted to the components this code base
produces (naive datetimes; `strptime`/`fromisoformat` results). -/
structure PyDateTime where
  year : Nat
  month : Nat
  day : Nat
  hour : Nat := 0
  minute : Nat := 0
  second : Nat := 0
deriving DecidableEq, Repr

/-- Gregorian leap-year rule used by Python's `datetime` validation. -/
def isLeapYear (y : Nat) : Bool :=
  y % 4 == 0 && (y % 100 != 0 || y % 400 == 0)

/-- Number of days in a month, as `datetime` validates day-of-month. -/
def daysInMonth (y m : Nat) : Nat :=
  if m == 2 then (if isLeapYear y then 29 else 28)
  else if m == 4 || m == 6 || m == 9 || m == 11 then 30
  else 31

/-- ASCII `\s` of Python's `re` (space, tab, CR, LF suffice for this code). -/
def isPySpace (c : Char) : Bool := c.isWhitespace

/-- ASCII `\w` of Python's `re`: alphanumeric or underscore. -/
def isWordChar (c : Char) : Bool := c.isAlphanum || c == '_'

/-- Python `str.strip()` (no arguments): drop leading and trailing
whitespace.  Structural on the character list so that proofs can evaluate
it. -/
def pyStrip (s : String) : String :=
  ⟨((s.data.dropWhile isPySpace).reverse.dropWhile isPySpace).reverse⟩

/-- Python `str.lower()` (ASCII inputs). -/
def pyLower (s : String) : String :=
  ⟨s.data.map Char.toLower⟩

/-- Python `value.split("-")` / the `-`-separated token shape `strptime`
consumes: maximal segments between literal hyphens. -/
def splitOnDash : List Char → List (List Char)
  | [] => [[]]
  | c :: cs =>
      if c = '-' then [] :: splitOnDash cs
      else
        match splitOnDash cs with
        | h :: t => (c :: h) :: t
        | [] => [[c]]

/-- Replace every maximal run of whitespace by a single copy of `rep`
(`re.sub(r"\s+", rep, s)` for a one-character replacement), without
stripping the ends.  `inWS` records whether the previous character was
whitespace. -/
def collapseRunsWith (rep : Char) : Bool → List Char → List Char
  | _, [] => []
  | inWS, c :: cs =>
      if isPySpace c then
        if inWS then collapseRunsWith rep true cs
        else rep :: collapseRunsWith rep true cs
      else c :: collapseRunsWith rep false cs

/-- `re.sub(r"\s+", " ", s)`. -/
def collapseWS (s : String) : String :=
  ⟨collapseRunsWith ' ' false s.data⟩

/-- `str.rstrip(":")`: drop every trailing colon. -/
def rstripColon (s : String) : String :=
  ⟨(s.data.reverse.dropWhile (· == ':')).reverse⟩

/-- `clean_text` from `src/scrapers/utils.py`: falsy input gives `None`;
otherwise collapse whitespace runs, strip, and map an empty result to
`None`. -/
def clean_text (s : Option String) : Option String :=
  match s with
  | none => none
  | some s =>
      if s = "" then none
      else
        let t := pyStrip (collapseWS s)
        if t = "" then none else some t

/-- `CANONICAL_MAP` from `src/scrapers/utils.py`, as an association list in
the source's (Python dict insertion) order; the order matters for the
substring-containment pass of `normalize_key`.  The entry
`"batch number "` keeps its trailing space exactly as in the source. -/
def CANONICAL_MAP : List (String × String) :=
  [ ("product", "product_name"),
    ("product name", "product_name"),
    ("name of product", "product_name"),
    ("batch", "batch_number"),
    ("batch no", "batch_number"),
    ("batch number", "batch_number"),
    ("batch number ", "batch_number"),
    ("lot", "batch_number"),
    ("lot no", "batch_number"),
    ("lot number", "batch_number"),
    ("expiry", "expiry_date"),
    ("expiry date", "expiry_date"),
    ("expiration date", "expiry_date"),
    ("exp date", "expiry_date"),
    ("manufacturing date", "date_of_manufacture"),
    ("manufacture date", "date_of_manufacture"),
    ("date of manufacture", "date_of_manufacture"),
    ("mfg date", "date_of_manufacture"),
    ("manufacturer", "stated_manufacturer"),
    ("stated manufacturer", "stated_manufacturer"),
    ("stated product manufacturer", "stated_manufacturer"),
    ("product manufacturer", "stated_manufacturer") ]

/-- Boolean contiguous-sublist test. -/
def listInfix (needle : List Char) : List Char → Bool
  | [] => needle.isPrefixOf []
  | c :: cs => needle.isPrefixOf (c :: cs) || listInfix needle cs

/-- Python substring test `needle in hay`. -/
def containsSub (needle hay : String) : Bool :=
  listInfix needle.data hay.data

/-- Replace every character outside `[\w\s]` by a space.  The source does
`re.sub(r"[^\w\s]+", " ", label)` (one space per run) followed by
`re.sub(r"\s+", " ", ...)`; replacing per character gives the identical
result after the subsequent whitespace collapse. -/
def dropPunct (s : String) : String :=
  ⟨s.data.map (fun c => if isWordChar c || isPySpace c then c else ' ')⟩

/-- Replace every maximal whitespace run by an underscore
(`re.sub(r"\s+", "_", label)`). -/
def snakeWS (s : String) : String :=
  ⟨collapseRunsWith '_' false s.data⟩

/-- The cleaned, lower-cased form of a label that `normalize_key` matches
against `CANONICAL_MAP`: collapse/strip, drop trailing colons, drop
punctuation, collapse whitespace again, lowercase.  (`normalize_key` does
not strip again after the punctuation pass, so the result may carry a
trailing space.)  Returns `none` when `clean_text` gives `none`. -/
def cleanedLabel (label : String) : Option String :=
  match clean_text (some label) with
  | none => none
  | some l0 => some (pyLower (collapseWS (dropPunct (rstripColon l0))))

/-- First `CANONICAL_MAP` entry whose key is a substring of `l`,
in the map's insertion order (`for key, canonical in CANONICAL_MAP.items()`). -/
def firstContained (l : String) : Option String :=
  (CANONICAL_MAP.find? (fun kv => containsSub kv.1 l)).map Prod.snd

/-- Exact-match lookup in `CANONICAL_MAP` (`if label in CANONICAL_MAP`). -/
def exactMatch (l : String) : Option String :=
  (CANONICAL_MAP.find? (fun kv => kv.1 == l)).map Prod.snd

/-- `normalize_key` from `src/scrapers/utils.py`.  A falsy label gives
`none`.  A whitespace-only (truthy) label makes the source raise
`AttributeError` (`clean_text` returns `None`, then `None.rstrip`); that
input is unreachable from the table pipeline (grid cells are stripped), and
is modelled as `none` here.  Otherwise: exact map lookup, then first
substring containment in map order, then the snake-cased fallback (or
`none` when `return_none`). -/
def normalize_key (label : String) (return_none : Bool := false) : Option String :=
  if label = "" then none
  else
    match cleanedLabel label with
    | none => none
    | some l =>
        match exactMatch l with
        | some v => some v
        | none =>
            match firstContained l with
            | some v => some v
            | none => if return_none then none else some (snakeWS l)

/-! ### Date parser (`parse_date` in `src/scrapers/utils.py`) -/

/-- Digit-string to `Nat` (all characters assumed digits). -/
def digitsToNat (cs : List Char) : Nat :=
  cs.foldl (fun n c => n * 10 + (c.toNat - 48)) 0

/-- Strategy 1 of `parse_date`: normalize `/` to `-`, and on a full match of
`\d{2}-\d{4}` run `strptime(..., "%m-%Y")` (month `01`–`12`, year at least
`0001`), giving the first day of that month.  An invalid month or year makes
`strptime` raise `ValueError`, which the source swallows (`none` here). -/
def parseMonthYear (value : String) : Option PyDateTime :=
  let normalized : List Char := value.data.map (fun c => if c == '/' then '-' else c)
  match normalized with
  | [m1, m2, '-', y1, y2, y3, y4] =>
      if [m1, m2, y1, y2, y3, y4].all Char.isDigit then
        let m := digitsToNat [m1, m2]
        let y := digitsToNat [y1, y2, y3, y4]
        if 1 ≤ m && m ≤ 12 && 1 ≤ y then some ⟨y, m, 1, 0, 0, 0⟩ else none
      else none
  | _ => none

/-- The C-locale abbreviated month names matched (case-insensitively) by
`strptime`'s `%b`. -/
def monthAbbrevs : List String :=
  ["jan", "feb", "mar", "apr", "may", "jun",
   "jul", "aug", "sep", "oct", "nov", "dec"]

/-- The C-locale full month names matched (case-insensitively) by `%B`. -/
def monthFulls : List String :=
  ["january", "february", "march", "april", "may", "june",
   "july", "august", "september", "october", "november", "december"]

/-- Month number from a (lower-cased) name matched by `%b` or `%B`. -/
def monthFromName (s : String) : Option Nat :=
  match monthAbbrevs.indexOf? s with
  | some i => some (i + 1)
  | none =>
      match monthFulls.indexOf? s with
      | some i => some (i + 1)
      | none => none

/-- Strategy 2 of `parse_date`: the four formats `%d-%b-%y`, `%d-%b-%Y`,
`%d-%B-%y`, `%d-%B-%Y` tried in order.  The token shapes of the four
formats are mutually exclusive on any one input (month-name kind and year
width are determined by the tokens), so the sequential `try/except` loop is
equivalent to this single split-and-validate: day of 1–2 digits in 1..31,
a literal `-`, a month name, a literal `-`, a year of exactly 2 digits
(`%y`, pivot 69: 00–68 ↦ 2000s, 69–99 ↦ 1900s) or exactly 4 digits (`%Y`),
validated against the month length as `strptime` does. -/
def parseDayMonthName (value : String) : Option PyDateTime :=
  match (splitOnDash value.data).map (fun cs => String.mk cs) with
  | [d, mon, y] =>
      if d.data ≠ [] && d.data.all Char.isDigit && d.data.length ≤ 2 then
        let day := digitsToNat d.data
        if 1 ≤ day && day ≤ 31 then
          match monthFromName (pyLower mon) with
          | none => none
          | some m =>
              let year? : Option Nat :=
                if y.data.all Char.isDigit then
                  if y.data.length == 2 then
                    let yy := digitsToNat y.data
                    some (if yy ≤ 68 then 2000 + yy else 1900 + yy)
                  else if y.data.length == 4 then
                    let yy := digitsToNat y.data
                    if 1 ≤ yy then some yy else none
                  else none
                else none
              match year? with
              | none => none
              | some year =>
                  if day ≤ daysInMonth year m then some ⟨year, m, day, 0, 0, 0⟩
                  else none
        else none
      else none
  | _ => none

/-- Parse exactly two digit characters in a range. -/
def twoDigits (a b : Char) (lo hi : Nat) : Option Nat :=
  if a.isDigit && b.isDigit then
    let n := digitsToNat [a, b]
    if lo ≤ n && n ≤ hi then some n else none
  else none

/-- Strategy 3 of `parse_date`: `datetime.fromisoformat`, modelled on the
subset this repository feeds it: a complete `YYYY-MM-DD` date (year at
least `0001`), optionally followed by a single separator character and a
time `HH`, `HH:MM` or `HH:MM:SS`.  Fractional seconds, compact forms and
UTC offsets are not modelled (no caller in this repository produces them). -/
def parseIso (value : String) : Option PyDateTime :=
  match value.data with
  | y1 :: y2 :: y3 :: y4 :: '-' :: m1 :: m2 :: '-' :: d1 :: d2 :: rest =>
      if [y1, y2, y3, y4].all Char.isDigit then
        let y := digitsToNat [y1, y2, y3, y4]
        if 1 ≤ y then
          match twoDigits m1 m2 1 12 with
          | none => none
          | some m =>
              match twoDigits d1 d2 1 31 with
              | none => none
              | some d =>
                  if d ≤ daysInMonth y m then
                    match rest with
                    | [] => some ⟨y, m, d, 0, 0, 0⟩
                    | _ :: t =>
                        match t with
                        | [h1, h2] =>
                            (twoDigits h1 h2 0 23).map (fun h => ⟨y, m, d, h, 0, 0⟩)
                        | [h1, h2, ':', mi1, mi2] =>
                            match twoDigits h1 h2 0 23, twoDigits mi1 mi2 0 59 with
                            | some h, some mi => some ⟨y, m, d, h, mi, 0⟩
                            | _, _ => none
                        | [h1, h2, ':', mi1, mi2, ':', s1, s2] =>
                            match twoDigits h1 h2 0 23, twoDigits mi1 mi2 0 59,
                                  twoDigits s1 s2 0 59 with
                            | some h, some mi, some s => some ⟨y, m, d, h, mi, s⟩
                            | _, _, _ => none
                        | _ => none
                  else none
        else none
      else none
  | _ => none

/-- `parse_date` on a (stripped) string value: the three strategies in
source order, first success winning, `none` when all fail. -/
def parseDateStr (value : String) : Option PyDateTime :=
  match parseMonthYear value with
  | some d => some d
  | none =>
      match parseDayMonthName value with
      | some d => some d
      | none => parseIso value

/-- `parse_date` from `src/scrapers/utils.py`: falsy input (`None` or `""`)
gives `None`; otherwise the input is stripped and the three strategies run
in order. -/
def parse_date (value : Option String) : Option PyDateTime :=
  match value with
  | none => none
  | some v => if v = "" then none else parseDateStr (pyStrip v)

/-! ### Title decomposition (`extract_title`, `extract_country_from_title`,
`extract_brand_name_and_generic_name_from_title` in `src/scrapers/utils.py`) -/

/-- The characters of the class in `extract_title`'s regex.  The source
bytes are `[-` `c3a2 e282ac e2809c` `]`: a hyphen followed by the literal
mojibake characters U+00E2, U+20AC, U+201C (an en dash double-encoded at
some point), embedded here verbatim. -/
def dashClass : List Char :=
  ['-', Char.ofNat 0xE2, Char.ofNat 0x20AC, Char.ofNat 0x201C]

/-- Match `\s*(.+)` against the suffix after a dash-class character:
greedily skip whitespace, backtracking just enough that `(.+)` can take at
least one non-newline character; the group then extends greedily to the
next newline or the end. -/
def matchAfterDash (t : List Char) : Option String :=
  let ws := t.takeWhile isPySpace
  if ws.length < t.length then
    -- maximal `\s*`; the next character is non-whitespace, hence non-newline
    some ⟨(t.drop ws.length).takeWhile (· ≠ '\n')⟩
  else
    -- the whole suffix is whitespace: backtrack `\s*` to the last
    -- non-newline position, if any; everything after it is `\n`, so the
    -- group is that single character
    match t.reverse.dropWhile (· == '\n') with
    | [] => none
    | c :: _ => some ⟨[c]⟩

/-- Scan for the first dash-class character whose suffix matches
`\s*(.+)`. -/
def searchDash : List Char → Option String
  | [] => none
  | c :: cs =>
      if dashClass.contains c then
        match matchAfterDash cs with
        | some g => some g
        | none => searchDash cs
      else searchDash cs

/-- `extract_title` from `src/scrapers/utils.py`:
`re.search(r"[-â€“]\s*(.+)", title).group(1)`.  When the regex finds no
match, `re.search` returns `None` and the attribute access raises
`AttributeError`; that is the `Except.error` case. -/
def extract_title (title : String) : Except Unit String :=
  match searchDash title.data with
  | some g => Except.ok g
  | none => Except.error ()

/-- Uppercase ASCII letter (`[A-Z]`). -/
def isUpperAZ (c : Char) : Bool := 'A' ≤ c && c ≤ 'Z'

/-- `[A-Za-z]`. -/
def isAlphaAZ (c : Char) : Bool := c.isAlpha

/-- Word boundary before position: start of string or previous char not in
`\w`. -/
def boundaryBefore (prev : Option Char) : Bool :=
  match prev with
  | none => true
  | some c => !(isWordChar c)

/-- Attempt `\b(?:in)\s+([A-Z][A-Za-z\s]+)$` at the current position:
`prev` is the character before it. -/
def matchInCountry (prev : Option Char) : List Char → Option String
  | 'i' :: 'n' :: rest =>
      if boundaryBefore prev then
        let ws := rest.takeWhile isPySpace
        if ws.length = 0 then none
        else
          match rest.drop ws.length with
          | [] => none
          | c :: tail =>
              -- `[A-Z]` then at least one `[A-Za-z\s]` reaching the end
              if isUpperAZ c && tail ≠ [] &&
                 tail.all (fun d => isAlphaAZ d || isPySpace d) then
                some ⟨c :: tail⟩
              else none
      else none
  | _ => none

/-- Left-to-right scan for the pattern above. -/
def searchInCountry (prev : Option Char) : List Char → Option String
  | [] => none
  | c :: cs =>
      match matchInCountry prev (c :: cs) with
      | some g => some g
      | none => searchInCountry (some c) cs

/-- `extract_country_from_title` from `src/scrapers/utils.py`: falsy title
gives `None`; otherwise search the stripped title for
`\b(?:in)\s+([A-Z][A-Za-z\s]+)$` and strip the group. -/
def extract_country_from_title (title : String) : Option String :=
  if title = "" then none
  else (searchInCountry none (pyStrip title).data).map pyStrip

/-- `[A-Za-z0-9\-]`. -/
def isBrandChar (c : Char) : Bool := c.isAlphanum || c == '-'

/-- Attempt `([A-Z][A-Za-z0-9\-]*)\s*\(([^)]+)\)` at the current position.
The quantifiers are effectively deterministic here: the run and the
whitespace are maximal (shrinking either leaves a character that can match
neither `\s` nor the literal `(`), and `[^)]+` stops at the first `)`. -/
def matchBrand : List Char → Option (String × String)
  | [] => none
  | c :: cs =>
      if isUpperAZ c then
        let run := cs.takeWhile isBrandChar
        let afterRun := cs.drop run.length
        let ws := afterRun.takeWhile isPySpace
        match afterRun.drop ws.length with
        | '(' :: inner =>
            let content := inner.takeWhile (· ≠ ')')
            if content ≠ [] && inner.drop content.length ≠ [] then
              some (⟨c :: run⟩, ⟨content⟩)
            else none
        | _ => none
      else none

/-- Left-to-right scan for the brand/generic pattern. -/
def searchBrand : List Char → Option (String × String)
  | [] => none
  | c :: cs =>
      match matchBrand (c :: cs) with
      | some g => some g
      | none => searchBrand cs

/-- `extract_brand_name_and_generic_name_from_title` from
`src/scrapers/utils.py`: falsy title gives `(None, None)`; otherwise search
the stripped title for `([A-Z][A-Za-z0-9\-]*)\s*\(([^)]+)\)` and strip both
groups. -/
def extract_brand_name_and_generic_name_from_title (title : String) :
    Option String × Option String :=
  if title = "" then (none, none)
  else
    match searchBrand (pyStrip title).data with
    | some (b, g) => (some (pyStrip b), some (pyStrip g))
    | none => (none, none)

/-! ### Grid builder (`table_to_grid` in `src/scrapers/utils.py`; the same
code is nested verbatim inside `NafDacScraper._parse_nafdac_table`). -/

/-- One `<td>`/`<th>` cell as the builder consumes it: `text` is
`cell_text(cell)` (a cleaned `Optional[str]`), `colspan` and `rowspan` the
parsed attribute values. -/
structure HCell where
  text : Option String
  colspan : Nat := 1
  rowspan : Nat := 1
deriving DecidableEq, Repr

/-- A physical `<tr>` row: its direct `td`/`th` children. -/
abbrev HRow := List HCell

/-- A row of the intermediate grid: `None`-initialised slots. -/
abbrev Slots := List (Option String)

/-- The `pending` dict `col_idx -> (rows_remaining, value)`, as an
insertion-ordered association list with unique keys (Python dict). -/
abbrev Pending := List (Nat × Nat × Option String)

/-- `row_width`: the colspan-weighted width of a physical row. -/
def rowWidth (r : HRow) : Nat :=
  r.foldl (fun w c => w + c.colspan) 0

/-- `ncols = max(row_width(tr) for tr in trs)` (0 on an empty table). -/
def gridWidth (t : List HRow) : Nat :=
  (t.map rowWidth).foldl max 0

/-- Dict lookup: first (unique) entry with the given key. -/
def pendingLookup (p : Pending) (k : Nat) : Option (Nat × Option String) :=
  (p.find? (fun e => e.1 == k)).map (fun e => (e.2.1, e.2.2))

/-- Dict assignment `pending[k] = v`: update in place when the key exists,
append otherwise. -/
def pendingSet (p : Pending) (k : Nat) (v : Nat × Option String) : Pending :=
  if p.any (fun e => e.1 == k) then
    p.map (fun e => if e.1 == k then (k, v.1, v.2) else e)
  else p ++ [(k, v.1, v.2)]

/-- Prefill pass over `list(pending.items())`: every entry with a positive
remaining count writes its value into its column. -/
def prefill (p : Pending) (row : Slots) : Slots :=
  p.foldl (fun r e => if 0 < e.2.1 then r.set e.1 e.2.2 else r) row

/-- The pending dict after the prefill pass: counts decrement and entries
reaching zero are popped (entries already at zero are popped unfilled). -/
def stepPending (p : Pending) : Pending :=
  p.filterMap (fun e => if 2 ≤ e.2.1 then some (e.1, e.2.1 - 1, e.2.2) else none)

/-- The loop body of `while col_ptr < ncols and row[col_ptr] is not None:
col_ptr += 1`, with `fuel = ncols - q` (so `fuel > 0` iff `q < ncols`);
structural recursion on the fuel keeps the definition kernel-computable. -/
def skipFilledGo (row : Slots) : Nat → Nat → Nat
  | 0, q => q
  | fuel + 1, q =>
      match row.get? q with
      | some (some _) => skipFilledGo row fuel (q + 1)
      | _ => q

/-- `while col_ptr < ncols and row[col_ptr] is not None: col_ptr += 1`. -/
def skipFilled (ncols : Nat) (row : Slots) (p : Nat) : Nat :=
  skipFilledGo row (ncols - p) p

/-- One iteration of the colspan placement loop: write the cell's text
into column `colPtr + j` (when in range) and register rowspan carry-over
for that column. -/
def placeOne (ncols : Nat) (cell : HCell) (colPtr : Nat)
    (sp : Slots × Pending) (j : Nat) : Slots × Pending :=
  if colPtr + j < ncols then
    (sp.1.set (colPtr + j) cell.text,
     if 1 < cell.rowspan then
       pendingSet sp.2 (colPtr + j) (cell.rowspan - 1, cell.text)
     else sp.2)
  else sp

/-- Place one cell across its colspan starting at `colPtr`
(`for j in range(colspan): ...`). -/
def placeSpan (ncols : Nat) (cell : HCell) (colPtr : Nat)
    (sp : Slots × Pending) : Slots × Pending :=
  (List.range cell.colspan).foldl (placeOne ncols cell colPtr) sp

/-- The per-row cell placement loop: find the next free slot, `break` when
past the last column (remaining cells are skipped), place across the
colspan, advance the pointer by the colspan. -/
def placeCells (ncols : Nat) : List HCell → Slots × Pending → Nat → Slots × Pending
  | [], sp, _ => sp
  | cell :: rest, sp, colPtr =>
      let p := skipFilled ncols sp.1 colPtr
      if p ≥ ncols then sp
      else placeCells ncols rest (placeSpan ncols cell p sp) (p + cell.colspan)

/-- The row loop of `table_to_grid`: emit one slot row per physical row and
thread the pending dict; also returns the final pending state. -/
def buildRawAux (ncols : Nat) : Pending → List HRow → List Slots × Pending
  | pd, [] => ([], pd)
  | pd, tr :: rest =>
      let sp := placeCells ncols tr
        (prefill pd (List.replicate ncols none), stepPending pd) 0
      let next := buildRawAux ncols sp.2 rest
      (sp.1 :: next.1, next.2)

/-- The intermediate grid (all physical rows, `None` slots remaining). -/
def buildRaw (ncols : Nat) (pd : Pending) (rows : List HRow) : List Slots :=
  (buildRawAux ncols pd rows).1

/-- `(c or "").strip()` applied to a slot. -/
def slotOut (c : Option String) : String := pyStrip (c.getD "")

/-- `table_to_grid` from `src/scrapers/utils.py`: empty table or zero
computed width give an empty grid; otherwise build the raw grid, convert
`None` to `""`, strip, and keep only rows with at least one non-empty
cell. -/
def table_to_grid (t : List HRow) : List (List String) :=
  match t with
  | [] => []
  | _ =>
      let ncols := gridWidth t
      if ncols = 0 then []
      else
        ((buildRaw ncols [] t).map (fun r => r.map slotOut)).filter
          (fun rr => rr.any (fun s => s ≠ ""))

/-! ### Table classifier (`NafDacScraper._parse_nafdac_table`,
`src/scrapers/nafdac.py`): the column-count decision applied to the grid. -/

/-- The column-oriented result dict: insertion-ordered association list
`canonical key -> list of values` (Python `dict[str, list[str]]`). -/
abbrev FieldDict := List (String × List String)

/-- `result.setdefault(k, [])`. -/
def dictSetdefault (d : FieldDict) (k : String) : FieldDict :=
  if d.any (fun e => e.1 == k) then d else d ++ [(k, [])]

/-- `result[k].append(v)` (appends to the entry with key `k`, if any). -/
def dictAppend (d : FieldDict) (k : String) (v : String) : FieldDict :=
  d.map (fun e => if e.1 == k then (e.1, e.2 ++ [v]) else e)

/-- Truthiness of an `Optional[str]` header key (`if h:`). -/
def truthy (h : Option String) : Bool :=
  match h with
  | none => false
  | some s => s ≠ ""

/-- Pad with `""` to the header length, then truncate to it
(`if len(r) < ncols: r = r + [""] * (ncols - len(r)); r = r[:ncols]`). -/
def padTrunc (r : List String) (ncols : Nat) : List String :=
  (r ++ List.replicate (ncols - r.length) "").take ncols

/-- `result.setdefault(h, [])` for one truthy normalized header
(`for h in headers: if h: result.setdefault(h, [])`). -/
def seedHeader (d : FieldDict) (h : Option String) : FieldDict :=
  match h with
  | some k => if k ≠ "" then dictSetdefault d k else d
  | none => d

/-- The inner step of case A: one (header, cell) pair of a data row
(`if not h: continue; val = (r[i] or "").strip(); if val:
result[h].append(val)`). -/
def classifyCell (d : FieldDict) (hv : Option String × String) : FieldDict :=
  match hv.1 with
  | none => d
  | some k =>
      if k ≠ "" then
        let val := pyStrip hv.2
        if val ≠ "" then dictAppend d k val else d
      else d

/-- One data row of case A: pad/truncate, then walk the header/cell
pairs. -/
def classifyRow (headers : List (Option String)) (ncols : Nat)
    (d : FieldDict) (r : List String) : FieldDict :=
  (headers.zip (padTrunc r ncols)).foldl classifyCell d

/-- Case A of `_parse_nafdac_table` (`ncols >= 3`): normalize row 0 into
header keys, seed the dict with the truthy keys, then walk the data rows
appending each non-empty stripped value to its column's key. -/
def parseMatrixTable (row0 : List String) (rest : List (List String)) : FieldDict :=
  let ncols := row0.length
  let headers := row0.map (fun h => normalize_key h)
  rest.foldl (classifyRow headers ncols) (headers.foldl seedHeader [])

/-- Case B of `_parse_nafdac_table` (`ncols == 2`): each row is a
label/value pair; skip pairs with a falsy key or empty value.  The source
unpacks `for label, value in rows`, which raises `ValueError` on a row of
another length; grid rows are rectangular so that is unreachable, and such
rows are skipped here. -/
def parseKeyValueTable (rows : List (List String)) : FieldDict :=
  rows.foldl
    (fun d r =>
      match r with
      | [label, value] =>
          match normalize_key label with
          | none => d
          | some k =>
              if k ≠ "" then
                let val := pyStrip value
                if val ≠ "" then dictAppend (dictSetdefault d k) k val else d
              else d
      | _ => d)
    []

/-- The classification step of `_parse_nafdac_table` on the rows returned
by `table_to_grid`: empty grid or a width other than 2 and below 3 give the
empty dict. -/
def parseNafdacRows (rows : List (List String)) : FieldDict :=
  match rows with
  | [] => []
  | r0 :: rest =>
      if 3 ≤ r0.length then parseMatrixTable r0 rest
      else if r0.length = 2 then parseKeyValueTable (r0 :: rest)
      else []

/-- `_parse_nafdac_table` composed with the grid builder. -/
def parse_nafdac_table (t : List HRow) : FieldDict :=
  parseNafdacRows (table_to_grid t)

/-- First-occurrence deduplication, skipping keys already `seen`. -/
def dedupNew (seen : List String) : List String → List String
  | [] => []
  | k :: ks => if seen.any (fun x => x == k) then dedupNew seen ks
               else k :: dedupNew (k :: seen) ks

/-- The truthy canonical keys of a header row, in column order. -/
def truthyKeys (headers : List (Option String)) : List String :=
  headers.filterMap (fun h => match h with
    | some k => if k ≠ "" then some k else none
    | none => none)

/-- The value a (header, cell) pair contributes to the key `k`: the
stripped cell text when the pair's canonical header is exactly the truthy
key `k` and the stripped text is non-empty. -/
def selVal (k : String) (hv : Option String × String) : Option String :=
  if hv.1 = some k ∧ k ≠ "" ∧ pyStrip hv.2 ≠ "" then some (pyStrip hv.2) else none

/-- Modelled from the spec (§4.4 Table Classifier, matrix case): "treat row
0 as headers, normalize each header cell via Key Normalizer; for every
subsequent row, align each cell to its column's canonical key
(padding/truncating rows whose length doesn't match the header count) and
append non-empty values to that key's list."  Written column-gathering
style — one entry per distinct truthy header key, holding all of that key's
non-empty values in row-major order — to be compared with the row-appending
loop of the source. -/
def matrixSpec (row0 : List String) (rest : List (List String)) : FieldDict :=
  let ncols := row0.length
  let headers := row0.map (fun h => normalize_key h)
  (dedupNew [] (truthyKeys headers)).map
    (fun k =>
      (k, rest.flatMap (fun r =>
        (headers.zip (padTrunc r ncols)).filterMap (selVal k))))

/-! ### Stable record identity (`BaseScraper.make_record_id`,
`src/scrapers/base.py`), with `hashlib.sha256` implemented over `Nat`. -/

/-- 32-bit truncation. -/
def w32 (n : Nat) : Nat := n % 4294967296

/-- Bitwise right rotation of a 32-bit word. -/
def rotr32 (n x : Nat) : Nat :=
  w32 ((x >>> n) ||| (x <<< (32 - n)))

/-- The SHA-256 round constants of FIPS 180-4, written in decimal. -/
def sha256K : List Nat :=
  [1116352408, 1899447441, 3049323471, 3921009573, 961987163,
   1508970993, 2453635748, 2870763221, 3624381080, 310598401,
   607225278, 1426881987, 1925078388, 2162078206, 2614888103,
   3248222580, 3835390401, 4022224774, 264347078, 604807628,
   770255983, 1249150122, 1555081692, 1996064986, 2554220882,
   2821834349, 2952996808, 3210313671, 3336571891, 3584528711,
   113926993, 338241895, 666307205, 773529912, 1294757372,
   1396182291, 1695183700, 1986661051, 2177026350, 2456956037,
   2730485921, 2820302411, 3259730800, 3345764771, 3516065817,
   3600352804, 4094571909, 275423344, 430227734, 506948616,
   659060556, 883997877, 958139571, 1322822218, 1537002063,
   1747873779, 1955562222, 2024104815, 2227730452, 2361852424,
   2428436474, 2756734187, 3204031479, 3329325298]

/-- The SHA-256 initial hash state of FIPS 180-4, in decimal. -/
def sha256H0 : List Nat :=
  [1779033703, 3144134277, 1013904242, 2773480762, 1359893119,
   2600822924, 528734635, 1541459225]

/-- UTF-8 encoding of one code point, as byte values. -/
def utf8Char (c : Char) : List Nat :=
  let n := c.toNat
  if n < 0x80 then [n]
  else if n < 0x800 then [0xC0 ||| (n >>> 6), 0x80 ||| (n &&& 0x3F)]
  else if n < 0x10000 then
    [0xE0 ||| (n >>> 12), 0x80 ||| ((n >>> 6) &&& 0x3F), 0x80 ||| (n &&& 0x3F)]
  else
    [0xF0 ||| (n >>> 18), 0x80 ||| ((n >>> 12) &&& 0x3F),
     0x80 ||| ((n >>> 6) &&& 0x3F), 0x80 ||| (n &&& 0x3F)]

/-- `s.encode("utf-8")`. -/
def utf8Bytes (s : String) : List Nat :=
  s.data.flatMap utf8Char

/-- SHA-256 padding: `0x80`, zeros to 56 mod 64, 8-byte big-endian bit
length. -/
def sha256Pad (msg : List Nat) : List Nat :=
  let len := msg.length
  let zeros := (119 - len % 64) % 64
  let bits := len * 8
  msg ++ [0x80] ++ List.replicate zeros 0 ++
    [w32 (bits >>> 56) % 256, (bits >>> 48) % 256, (bits >>> 40) % 256,
     (bits >>> 32) % 256, (bits >>> 24) % 256, (bits >>> 16) % 256,
     (bits >>> 8) % 256, bits % 256]

/-- Big-endian 32-bit words from bytes. -/
def bytesToWords : List Nat → List Nat
  | b0 :: b1 :: b2 :: b3 :: rest =>
      (((b0 * 256 + b1) * 256 + b2) * 256 + b3) :: bytesToWords rest
  | _ => []

/-- Extend 16 words to the 64-entry message schedule. -/
def sha256Schedule (ws : Array Nat) : Array Nat := Id.run do
  let mut w := ws
  for i in [16:64] do
    let s0 := (rotr32 7 w[i-15]!) ^^^ (rotr32 18 w[i-15]!) ^^^ (w[i-15]! >>> 3)
    let s1 := (rotr32 17 w[i-2]!) ^^^ (rotr32 19 w[i-2]!) ^^^ (w[i-2]! >>> 10)
    w := w.push 0
    w := w.set! i (w32 (w[i-16]! + s0 + w[i-7]! + s1))
  return w

/-- One SHA-256 compression over a 16-word block. -/
def sha256Compress (h : List Nat) (block : List Nat) : List Nat := Id.run do
  let w := sha256Schedule block.toArray
  let mut a := h[0]!
  let mut b := h[1]!
  let mut c := h[2]!
  let mut d := h[3]!
  let mut e := h[4]!
  let mut f := h[5]!
  let mut g := h[6]!
  let mut hh := h[7]!
  for i in [0:64] do
    let s1 := (rotr32 6 e) ^^^ (rotr32 11 e) ^^^ (rotr32 25 e)
    let ch := (e &&& f) ^^^ ((0xFFFFFFFF ^^^ e) &&& g)
    let t1 := w32 (hh + s1 + ch + sha256K[i]! + w[i]!)
    let s0 := (rotr32 2 a) ^^^ (rotr32 13 a) ^^^ (rotr32 22 a)
    let mj := (a &&& b) ^^^ (a &&& c) ^^^ (b &&& c)
    let t2 := w32 (s0 + mj)
    hh := g
    g := f
    f := e
    e := w32 (d + t1)
    d := c
    c := b
    b := a
    a := w32 (t1 + t2)
  return [w32 (h[0]! + a), w32 (h[1]! + b), w32 (h[2]! + c), w32 (h[3]! + d),
          w32 (h[4]! + e), w32 (h[5]! + f), w32 (h[6]! + g), w32 (h[7]! + hh)]

/-- Split a word list into 16-word blocks. -/
def blocks16 : List Nat → List (List Nat)
  | [] => []
  | a :: l => (a :: l).take 16 :: blocks16 ((a :: l).drop 16)
termination_by ws => ws.length
decreasing_by
  simp only [List.drop_succ_cons, List.length_drop, List.length_cons]
  omega

/-- Lowercase hex digit. -/
def hexDigit (n : Nat) : Char :=
  if n < 10 then Char.ofNat (48 + n) else Char.ofNat (87 + n)

/-- Eight lowercase hex characters of a 32-bit word. -/
def wordHex (x : Nat) : List Char :=
  [hexDigit ((x >>> 28) % 16), hexDigit ((x >>> 24) % 16),
   hexDigit ((x >>> 20) % 16), hexDigit ((x >>> 16) % 16),
   hexDigit ((x >>> 12) % 16), hexDigit ((x >>> 8) % 16),
   hexDigit ((x >>> 4) % 16), hexDigit (x % 16)]

/-- `hashlib.sha256(s.encode("utf-8")).hexdigest()`. -/
def sha256Hex (s : String) : String :=
  let padded := sha256Pad (utf8Bytes s)
  let final := (blocks16 (bytesToWords padded)).foldl sha256Compress sha256H0
  ⟨final.flatMap wordHex⟩

/-- One argument of `make_record_id(*parts)`: the call sites pass strings,
`None`, or a `datetime` (the parsed publish date). -/
inductive Part where
  | str (s : String)
  | dt (d : PyDateTime)
  | null
deriving DecidableEq, Repr

/-- `p.strip()` on one retained part.  On a `datetime` the attribute lookup
raises `AttributeError` (`datetime` has no `strip`): the `Except.error`
case. -/
def stripPart : Part → Except Unit String
  | .str s => .ok (pyStrip s)
  | .dt _ => .error ()
  | .null => .ok ""  -- unreachable: `None` parts are filtered out first

/-- `make_record_id` from `src/scrapers/base.py`:
`raw = "||".join([p.strip() for p in parts if p is not None])` followed by
`hashlib.sha256(raw.encode("utf-8")).hexdigest()`.  The comprehension
raises before hashing when a retained part is not a string. -/
def make_record_id (parts : List Part) : Except Unit String := do
  let kept := parts.filter (fun p => p ≠ .null)
  let stripped ← kept.mapM stripPart
  return sha256Hex (String.intercalate "||" stripped)

/-- An `Optional[str]` argument as a `Part`. -/
def optPart (s : Option String) : Part :=
  match s with
  | none => .null
  | some s => .str s

/-- An `Optional[datetime]` argument as a `Part`. -/
def dtPart (d : Option PyDateTime) : Part :=
  match d with
  | none => .null
  | some d => .dt d

/-- The `make_record_id` call of `NafDacScraper._parse_listing_page`
(`src/scrapers/nafdac.py` lines 292–298): source id, detail URL, the
parsed publish date, the parsed title, the manufacturer. -/
def nafdacRecordId (source_id detail_url : String)
    (publish_date : Option PyDateTime) (title manufacturer : Option String) :
    Except Unit String :=
  make_record_id
    [.str source_id, .str detail_url, dtPart publish_date,
     optPart title, optPart manufacturer]

/-- The `make_record_id` call of `FDAUSAScraper.standardize`
(`src/scrapers/fdausa.py` lines 305–311): source id, detail URL, the
parsed publish date, the title, the listing-row manufacturer. -/
def fdaRecordId (source_id detail_url : String)
    (publish_date : Option PyDateTime) (title : String)
    (manufacturer : Option String) : Except Unit String :=
  make_record_id
    [.str source_id, .str detail_url, dtPart publish_date,
     .str title, optPart manufacturer]

/-- The fields of a `DrugAlert` around a NAFDAC listing row that matter for
record identity: everything `record_id` is computed from, plus
`scraped_at`.  `record_id` is computed before the alert is built and never
reads `scraped_at`. -/
structure NafdacAlert where
  record_id : Except Unit String
  source_id : String
  source_url : String
  publish_date : Option PyDateTime
  title : Option String
  manufacturer : Option String
  scraped_at : PyDateTime
deriving Repr

/-- Assembly of the identity-relevant part of the `DrugAlert` built in
`NafDacScraper._parse_listing_page`. -/
def mkNafdacAlert (source_id detail_url : String)
    (publish_date : Option PyDateTime) (title manufacturer : Option String)
    (scraped_at : PyDateTime) : NafdacAlert :=
  { record_id := nafdacRecordId source_id detail_url publish_date title manufacturer
    source_id := source_id
    source_url := detail_url
    publish_date := publish_date
    title := title
    manufacturer := manufacturer
    scraped_at := scraped_at }

/-! ### Upsert conflict policies (`upsert_df` in `src/database.py` and
`BaseScraper._upsert_sqlite` in `src/scrapers/base.py`). -/

/-- A row of the `recalls` table (`src/database.py`), with the dates
already serialized to ISO strings as `upsert_df` does before executing. -/
structure RecallRow where
  record_id : String
  source_id : String
  source_org : String
  source_url : String
  product_name : Option String
  source_country : Option String
  manufacturer : Option String
  distributor : Option String
  publish_date : Option String
  scraped_at : Option String
  reason : Option String
  more_info : Option String
deriving DecidableEq, Repr

/-- Lexicographic comparison of character lists (by code point). -/
def lexLt : List Char → List Char → Bool
  | [], [] => false
  | [], _ :: _ => true
  | _ :: _, [] => false
  | a :: as, b :: bs =>
      if a < b then true else if b < a then false else lexLt as bs

/-- SQLite `excluded.scraped_at > recalls.scraped_at` on TEXT: binary
(lexicographic) comparison, which on the ISO timestamps this code stores is
chronological order. -/
def textGt (a b : String) : Bool := lexLt b.data a.data

/-- The `ON CONFLICT(record_id) DO UPDATE` clause of `upsert_df`
(`src/database.py` lines 50–71) as a merge of the stored row with the
incoming (`excluded`) row: provenance always overwritten, optional fields
`COALESCE(excluded.x, recalls.x)`, and the `CASE` ladder for
`scraped_at`. -/
def upsertRecallMerge (stored incoming : RecallRow) : RecallRow :=
  { record_id := stored.record_id
    source_id := incoming.source_id
    source_org := incoming.source_org
    source_url := incoming.source_url
    product_name := incoming.product_name.orElse (fun _ => stored.product_name)
    source_country := incoming.source_country.orElse (fun _ => stored.source_country)
    manufacturer := incoming.manufacturer.orElse (fun _ => stored.manufacturer)
    distributor := incoming.distributor.orElse (fun _ => stored.distributor)
    publish_date := incoming.publish_date.orElse (fun _ => stored.publish_date)
    reason := incoming.reason.orElse (fun _ => stored.reason)
    more_info := incoming.more_info.orElse (fun _ => stored.more_info)
    scraped_at :=
      match incoming.scraped_at, stored.scraped_at with
      | none, s => s
      | some i, none => some i
      | some i, some s => if textGt i s then some i else some s }

/-- A row of the `oncology_alerts` table (`BaseScraper.init_db`,
`src/scrapers/base.py`), the store `_upsert_sqlite` writes to. -/
structure OncologyRow where
  record_id : String
  source_id : Option String
  source_country : Option String
  source_org : Option String
  source_url : String
  title : Option String
  publish_date : Option String
  manufacturer_stated : Option String
  manufactured_for : Option String
  therapeutic_category : Option String
  reason : Option String
  alert_type : Option String
  notes : Option String
  body_text : Option String
  scraped_at : String
deriving DecidableEq, Repr

/-- The `ON CONFLICT(record_id) DO UPDATE` of `BaseScraper._upsert_sqlite`
(`src/scrapers/base.py` lines 155–175): every column except `record_id` is
set to `excluded.<column>`, i.e. the incoming value, null or not. -/
def upsertOncologyMerge (stored incoming : OncologyRow) : OncologyRow :=
  { incoming with record_id := stored.record_id }

/-- The identity-relevant part of the `DrugAlert` built in
`FDAUSAScraper.standardize` (`src/scrapers/fdausa.py`). -/
structure FdaAlert where
  record_id : Except Unit String
  source_id : String
  source_url : String
  publish_date : Option PyDateTime
  title : String
  manufacturer : Option String
  scraped_at : PyDateTime
deriving Repr

/-- Assembly of the identity-relevant part of the FDA `DrugAlert`:
`record_id` is computed from source id, detail URL, publish date, title and
manufacturer before `scraped_at` is stamped. -/
def mkFdaAlert (source_id detail_url : String)
    (publish_date : Option PyDateTime) (title : String)
    (manufacturer : Option String) (scraped_at : PyDateTime) : FdaAlert :=
  { record_id := fdaRecordId source_id detail_url publish_date title manufacturer
    source_id := source_id
    source_url := detail_url
    publish_date := publish_date
    title := title
    manufacturer := manufacturer
    scraped_at := scraped_at }

/-! ## Classifier equivalence lemmas (for C2): the row-appending loop of
`_parse_nafdac_table`'s matrix case equals the per-key column gathering of
the spec's description. -/

/-- A pair contributing no value leaves the entrywise-append form equal to
the dict itself. -/
theorem map_append_selVal_none (d : FieldDict) (w : Option String × String)
    (hw : ∀ e : String × List String, selVal e.1 w = none) :
    d.map (fun e => (e.1, e.2 ++ (selVal e.1 w).toList)) = d := by
  have h1 : d.map (fun e => (e.1, e.2 ++ (selVal e.1 w).toList)) =
      d.map (fun e => e) := by
    apply List.map_congr_left
    intro e _
    rw [hw e]
    simp
  rw [h1, List.map_id']

/-- One classifier step appends, entrywise, exactly the value the pair
contributes to that entry's key. -/
theorem classifyCell_eq (d : FieldDict) (hv : Option String × String) :
    classifyCell d hv = d.map (fun e => (e.1, e.2 ++ (selVal e.1 hv).toList)) := by
  obtain ⟨h1, v⟩ := hv
  cases h1 with
  | none =>
      rw [show classifyCell d (none, v) = d from rfl,
        map_append_selVal_none d (none, v) (fun e => by simp [selVal])]
  | some k =>
      by_cases hk : k = ""
      · subst hk
        have hc : classifyCell d (some "", v) = d := by
          simp [classifyCell]
        rw [hc, map_append_selVal_none d (some "", v)]
        intro e
        unfold selVal
        rw [if_neg]
        rintro ⟨a, b, _⟩
        exact b (Option.some.inj a).symm
      · by_cases hval : pyStrip v = ""
        · have hc : classifyCell d (some k, v) = d := by
            simp [classifyCell, hk, hval]
          rw [hc, map_append_selVal_none d (some k, v)]
          intro e
          unfold selVal
          rw [if_neg]
          rintro ⟨_, _, c⟩
          exact c hval
        · have hc : classifyCell d (some k, v) = dictAppend d k (pyStrip v) := by
            simp [classifyCell, hk, hval]
          rw [hc]
          unfold dictAppend
          apply List.map_congr_left
          intro e _
          by_cases he : e.1 = k
          · simp [selVal, he, hk, hval]
          · have hne : (e.1 == k) = false := by
              simp [he]
            have hsel : selVal e.1 (some k, v) = none := by
              unfold selVal
              rw [if_neg]
              rintro ⟨a, _, _⟩
              exact he (Option.some.inj a).symm
            simp [hne, hsel]

/-- Folding the classifier over a row's pairs appends, entrywise, that
row's contributions in pair order. -/
theorem foldCells_eq (pairs : List (Option String × String)) :
    ∀ d : FieldDict, pairs.foldl classifyCell d =
      d.map (fun e => (e.1, e.2 ++ pairs.filterMap (fun hv => selVal e.1 hv))) := by
  induction pairs with
  | nil => intro d; simp
  | cons hv rest ih =>
      intro d
      rw [List.foldl_cons, classifyCell_eq, ih, List.map_map]
      apply List.map_congr_left
      intro e _
      simp only [Function.comp_apply, List.filterMap_cons]
      cases selVal e.1 hv <;> simp

/-- Folding the classifier over all data rows appends, entrywise, every
row's contributions in row-major order. -/
theorem foldRows_eq (headers : List (Option String)) (ncols : Nat)
    (rows : List (List String)) :
    ∀ d : FieldDict, rows.foldl (classifyRow headers ncols) d =
      d.map (fun e => (e.1, e.2 ++ rows.flatMap (fun r =>
        (headers.zip (padTrunc r ncols)).filterMap (fun hv => selVal e.1 hv)))) := by
  induction rows with
  | nil => intro d; simp
  | cons r rows ih =>
      intro d
      rw [List.foldl_cons]
      show rows.foldl (classifyRow headers ncols) (classifyRow headers ncols d r) = _
      rw [classifyRow, foldCells_eq, ih, List.map_map]
      apply List.map_congr_left
      intro e _
      simp [List.append_assoc]

/-- `dedupNew` only inspects `seen` through membership tests. -/
theorem dedupNew_congr (l : List String) :
    ∀ seen1 seen2 : List String,
      (∀ x, seen1.any (fun y => y == x) = seen2.any (fun y => y == x)) →
      dedupNew seen1 l = dedupNew seen2 l := by
  induction l with
  | nil => intro _ _ _; rfl
  | cons k ks ih =>
      intro seen1 seen2 hseen
      rw [dedupNew, dedupNew, hseen k]
      by_cases h : seen2.any (fun x => x == k)
      · rw [if_pos h, if_pos h]
        exact ih seen1 seen2 hseen
      · rw [if_neg h, if_neg h]
        refine congrArg (k :: ·) (ih (k :: seen1) (k :: seen2) ?_)
        intro x
        simp [hseen x]

/-- Seeding the dict from the headers appends one empty-list entry per new
truthy key, in first-occurrence order. -/
theorem seedFold_eq (hs : List (Option String)) :
    ∀ d : FieldDict, hs.foldl seedHeader d =
      d ++ (dedupNew (d.map Prod.fst) (truthyKeys hs)).map
        (fun k => (k, ([] : List String))) := by
  induction hs with
  | nil => intro d; simp [truthyKeys, dedupNew]
  | cons h hs ih =>
      intro d
      rw [List.foldl_cons]
      cases h with
      | none =>
          show hs.foldl seedHeader (seedHeader d none) = _
          rw [seedHeader]
          have : truthyKeys (none :: hs) = truthyKeys hs := by
            simp [truthyKeys]
          rw [this, ih]
      | some k =>
          by_cases hk : k = ""
          · show hs.foldl seedHeader (seedHeader d (some k)) = _
            rw [seedHeader, if_neg (by simp [hk])]
            have : truthyKeys (some k :: hs) = truthyKeys hs := by
              simp [truthyKeys, hk]
            rw [this, ih]
          · show hs.foldl seedHeader (seedHeader d (some k)) = _
            rw [seedHeader, if_pos hk]
            have htk : truthyKeys (some k :: hs) = k :: truthyKeys hs := by
              simp [truthyKeys, hk]
            rw [htk, dedupNew]
            have hany : (d.map Prod.fst).any (fun x => x == k) =
                d.any (fun e => e.1 == k) := by
              clear ih
              induction d with
              | nil => rfl
              | cons e d ihd => simp [ihd]
            by_cases hseen : d.any (fun e => e.1 == k)
            · rw [dictSetdefault, if_pos hseen, if_pos (hany.trans hseen), ih]
            · rw [dictSetdefault, if_neg hseen,
                if_neg (by rw [hany]; exact hseen), ih]
              have hmapfst : (d ++ [(k, ([] : List String))]).map Prod.fst =
                  d.map Prod.fst ++ [k] := by simp
              rw [hmapfst]
              rw [dedupNew_congr (truthyKeys hs) (d.map Prod.fst ++ [k])
                (k :: d.map Prod.fst) (by intro x; simp [Bool.or_comm])]
              simp

/-- The matrix case of `_parse_nafdac_table` computes exactly the spec's
per-key column gathering. -/
theorem parseMatrixTable_eq_matrixSpec (row0 : List String)
    (rest : List (List String)) :
    parseMatrixTable row0 rest = matrixSpec row0 rest := by
  show rest.foldl (classifyRow (row0.map (fun h => normalize_key h)) row0.length)
      ((row0.map (fun h => normalize_key h)).foldl seedHeader []) =
    (dedupNew [] (truthyKeys (row0.map (fun h => normalize_key h)))).map
      (fun k =>
        (k, rest.flatMap (fun r =>
          ((row0.map (fun h => normalize_key h)).zip
            (padTrunc r row0.length)).filterMap (selVal k))))
  rw [seedFold_eq, foldRows_eq]
  simp only [List.map_nil, List.nil_append, List.map_map]
  apply List.map_congr_left
  intro k _
  simp

/-! ## Claims -/

/-- **C6.** `parse_date` tries its three strategies in order with first
success winning, every input failing all three (including `""` and `None`)
gives `none` rather than raising, and the five concrete examples evaluate
as the spec states. -/
theorem claim_C6_parse_date_order_and_examples :
    parse_date (some "15-Oct-25") = some ⟨2025, 10, 15, 0, 0, 0⟩ ∧
    parse_date (some "15-October-2025") = some ⟨2025, 10, 15, 0, 0, 0⟩ ∧
    parse_date (some "2026-01-09") = some ⟨2026, 1, 9, 0, 0, 0⟩ ∧
    parse_date (some "10-2020") = some ⟨2020, 10, 1, 0, 0, 0⟩ ∧
    parse_date (some "10/2020") = some ⟨2020, 10, 1, 0, 0, 0⟩ ∧
    parse_date (some "") = none ∧
    parse_date none = none ∧
    (∀ s d, parseMonthYear s = some d → parseDateStr s = some d) ∧
    (∀ s d, parseMonthYear s = none → parseDayMonthName s = some d →
      parseDateStr s = some d) ∧
    (∀ s d, parseMonthYear s = none → parseDayMonthName s = none →
      parseIso s = some d → parseDateStr s = some d) ∧
    (∀ s, parseMonthYear s = none → parseDayMonthName s = none →
      parseIso s = none → parseDateStr s = none) ∧
    (∀ s, parseMonthYear (pyStrip s) = none → parseDayMonthName (pyStrip s) = none →
      parseIso (pyStrip s) = none → parse_date (some s) = none) := by
  refine ⟨by decide, by decide, by decide, by decide, by decide, by decide, rfl,
    ?_, ?_, ?_, ?_, ?_⟩
  · intro s d h1
    simp [parseDateStr, h1]
  · intro s d h1 h2
    simp [parseDateStr, h1, h2]
  · intro s d h1 h2 h3
    simp [parseDateStr, h1, h2, h3]
  · intro s h1 h2 h3
    simp [parseDateStr, h1, h2, h3]
  · intro s h1 h2 h3
    by_cases hs : s = ""
    · simp [parse_date, hs]
    · simp [parse_date, hs, parseDateStr, h1, h2, h3]

/-- Witness for C6: the order and totality conjuncts applied at concrete
inputs. -/
theorem claim_C6_witness :
    parseMonthYear "10-2020" = some ⟨2020, 10, 1, 0, 0, 0⟩ ∧
    parseDateStr "10-2020" = some ⟨2020, 10, 1, 0, 0, 0⟩ ∧
    parseMonthYear "word soup" = none ∧ parseDayMonthName "word soup" = none ∧
    parseIso "word soup" = none ∧ parseDateStr "word soup" = none := by
  refine ⟨by decide, ?_, by decide, by decide, by decide, ?_⟩
  · exact claim_C6_parse_date_order_and_examples.2.2.2.2.2.2.2.1 _ _ (by decide)
  · exact claim_C6_parse_date_order_and_examples.2.2.2.2.2.2.2.2.2.2.1 _
      (by decide) (by decide) (by decide)

/-- **C10.** `parse_date`'s month-year branch needs exactly two month
digits: a single-digit month such as `"1-2020"` or `"1/2020"` fails all
three strategies and gives the `none` sentinel, for every single month
digit. -/
theorem claim_C10_single_digit_month_unparsed :
    parse_date (some "1-2020") = none ∧
    parse_date (some "1/2020") = none ∧
    (∀ m : Fin 10,
      parse_date (some ⟨[Char.ofNat (48 + m.val), '-', '2', '0', '2', '0']⟩) = none ∧
      parse_date (some ⟨[Char.ofNat (48 + m.val), '/', '2', '0', '2', '0']⟩) = none) := by
  exact ⟨by decide, by decide, by decide⟩

/-- **C7 counterexample.** `normalize_key "Product Manufacturer Name"`
resolves by substring containment, but the first containing canonical
phrase in `CANONICAL_MAP` order is `"product"`, so the result is
`product_name`, not the canonical manufacturer key `stated_manufacturer`
the claim states. -/
theorem claim_C7_counterexample :
    normalize_key "Product Manufacturer Name" = some "product_name" ∧
    some "product_name" ≠ some "stated_manufacturer" := by
  exact ⟨by decide, by decide⟩

/-- **C7 amended.** A label with no exact match in `CANONICAL_MAP` but
containing at least one canonical phrase resolves to the canonical value of
the FIRST containing phrase in the map's insertion order; in particular
`"Product Manufacturer Name"` contains `"product"` first and resolves to
`product_name`. -/
theorem claim_C7_amended_contains_first_in_map_order :
    (∀ label l b, label ≠ "" → cleanedLabel label = some l →
      exactMatch l = none → (∃ kv ∈ CANONICAL_MAP, containsSub kv.1 l) →
      normalize_key label b = firstContained l ∧ (firstContained l).isSome) ∧
    firstContained "product manufacturer name" = some "product_name" ∧
    normalize_key "Product Manufacturer Name" = some "product_name" := by
  refine ⟨?_, by decide, by decide⟩
  intro label l b hne hclean hexact hcontains
  have hsome : (CANONICAL_MAP.find? (fun kv => containsSub kv.1 l)).isSome := by
    rw [List.find?_isSome]
    obtain ⟨kv, hmem, hc⟩ := hcontains
    exact ⟨kv, hmem, hc⟩
  constructor
  · simp only [normalize_key, if_neg hne, hclean, hexact]
    obtain ⟨v, hv⟩ := Option.isSome_iff_exists.mp hsome
    simp [firstContained, hv]
  · simpa [firstContained] using hsome

/-- Witness for C7's amended theorem, at the claim's own example label. -/
theorem claim_C7_amended_witness :
    normalize_key "Product Manufacturer Name" false =
      firstContained "product manufacturer name" := by
  have h := claim_C7_amended_contains_first_in_map_order.1
    "Product Manufacturer Name" "product manufacturer name" false
    (by decide) (by decide) (by decide)
    ⟨("product", "product_name"), by decide, by decide⟩
  exact h.1

/-- **C8.** The three title-decomposition helpers are claimed total, but
`extract_title` is not: on a title with no dash-class character,
`re.search` returns `None` and `.group(1)` raises `AttributeError` (the
error case below).  The other two helpers do return `None` /
`(None, None)` on pattern absence. -/
theorem claim_C8_extract_title_raises :
    extract_title "Recall of Paclitaxel Injection batch PX123" = Except.error () ∧
    extract_country_from_title "Recall of Paclitaxel Injection batch PX123" = none ∧
    extract_country_from_title "" = none ∧
    extract_brand_name_and_generic_name_from_title
      "recall notice without capitalized parenthetical" = (none, none) ∧
    extract_brand_name_and_generic_name_from_title "" = (none, none) := by
  exact ⟨rfl, by decide, by decide, by decide, by decide⟩

/-- **C3.** `make_record_id` strips every retained part unconditionally
(`p.strip()`), so a `datetime` part — as passed for the parsed publish date
by the NAFDAC and FDA call sites — raises `AttributeError` instead of being
converted to its ISO-8601 string: the call errors rather than returning a
digest.  With string-only parts the function does return the hex digest of
the SHA-256 of the `"||"`-joined stripped parts. -/
theorem claim_C3_make_record_id_datetime_raises :
    nafdacRecordId "NAFDAC_NG"
      "https://nafdac.gov.ng/public-alert-no-03-2026/"
      (some ⟨2026, 1, 9, 0, 0, 0⟩)
      (some "Alert on the Circulation of a Falsified Product")
      (some "Acme Ltd") = Except.error () ∧
    make_record_id [.str "NAFDAC_NG", .str "https://u.example/a/", .null,
      .str " Title ", .str "Maker"] =
      Except.ok (sha256Hex "NAFDAC_NG||https://u.example/a/||Title||Maker") := by
  exact ⟨rfl, rfl⟩

/-- **C4.** `scraped_at` is not among the parts either scraper passes to
`make_record_id`: two alerts assembled from the same source id, detail URL,
publish date, title and manufacturer but different `scraped_at` stamps get
the same `record_id`. -/
theorem claim_C4_record_id_independent_of_scraped_at :
    (∀ (sid url : String) (pd : Option PyDateTime) (title man : Option String)
       (sa1 sa2 : PyDateTime),
      (mkNafdacAlert sid url pd title man sa1).record_id =
        (mkNafdacAlert sid url pd title man sa2).record_id) ∧
    (∀ (sid url : String) (pd : Option PyDateTime) (title : String)
       (man : Option String) (sa1 sa2 : PyDateTime),
      (mkFdaAlert sid url pd title man sa1).record_id =
        (mkFdaAlert sid url pd title man sa2).record_id) :=
  ⟨fun _ _ _ _ _ _ _ => rfl, fun _ _ _ _ _ _ _ => rfl⟩

/-- Concrete stored `recalls` row for the C5 example (`manufacturer "A"`,
`scraped_at` T1). -/
def storedRecall : RecallRow :=
  { record_id := "r1", source_id := "S_OLD", source_org := "Org Old"
    source_url := "https://old.example/", product_name := some "P"
    source_country := some "Nigeria", manufacturer := some "A"
    distributor := none, publish_date := some "2026-01-05T00:00:00"
    scraped_at := some "2026-01-06T00:00:00+00:00", reason := none
    more_info := none }

/-- Concrete incoming `recalls` row for the C5 example (`manufacturer`
null, `scraped_at` T2 > T1). -/
def incomingRecall : RecallRow :=
  { record_id := "r1", source_id := "S_NEW", source_org := "Org New"
    source_url := "https://new.example/", product_name := none
    source_country := none, manufacturer := none
    distributor := some "D", publish_date := none
    scraped_at := some "2026-01-07T00:00:00+00:00", reason := some "why"
    more_info := none }

/-- Concrete stored `oncology_alerts` row for the C5 counterexample. -/
def storedOncology : OncologyRow :=
  { record_id := "r1", source_id := some "S", source_country := some "Nigeria"
    source_org := some "Org", source_url := "https://old.example/"
    title := some "T", publish_date := some "2026-01-05"
    manufacturer_stated := some "A", manufactured_for := none
    therapeutic_category := none, reason := none, alert_type := none
    notes := none, body_text := none
    scraped_at := "2026-01-06T00:00:00+00:00" }

/-- Concrete incoming `oncology_alerts` row for the C5 counterexample:
same `record_id`, null `manufacturer_stated`, later `scraped_at`. -/
def incomingOncology : OncologyRow :=
  { record_id := "r1", source_id := some "S", source_country := some "Nigeria"
    source_org := some "Org", source_url := "https://new.example/"
    title := some "T", publish_date := some "2026-01-05"
    manufacturer_stated := none, manufactured_for := none
    therapeutic_category := none, reason := none, alert_type := none
    notes := none, body_text := none
    scraped_at := "2026-01-07T00:00:00+00:00" }

/-- **C5 counterexample.** Not every upsert in this repository keeps a
stored optional field when the incoming value is null:
`BaseScraper._upsert_sqlite` updates every non-`record_id` column to the
incoming (`excluded`) value, so a stored `manufacturer_stated = "A"` merged
with an incoming null becomes null, contradicting the claim for that
store. -/
theorem claim_C5_counterexample :
    storedOncology.record_id = incomingOncology.record_id ∧
    storedOncology.manufacturer_stated = some "A" ∧
    incomingOncology.manufacturer_stated = none ∧
    (upsertOncologyMerge storedOncology incomingOncology).manufacturer_stated
      ≠ storedOncology.manufacturer_stated := by
  exact ⟨rfl, rfl, rfl, by decide⟩

/-- **C5 amended.** The claimed conflict policy is exactly the one of
`upsert_df` on the `recalls` store: provenance always overwritten with the
incoming values, every other optional field kept unless the incoming value
is non-null, and `scraped_at` becoming the chronologically later timestamp
with a null on either side deferring to the other; on the claim's example
(stored manufacturer `"A"`/T1, incoming null/T2 > T1) the merge keeps
`"A"` and takes T2.  (`BaseScraper._upsert_sqlite` instead overwrites every
non-key column, per the counterexample.) -/
theorem claim_C5_amended_upsert_df_policy :
    (∀ s i : RecallRow,
      (upsertRecallMerge s i).source_id = i.source_id ∧
      (upsertRecallMerge s i).source_org = i.source_org ∧
      (upsertRecallMerge s i).source_url = i.source_url) ∧
    (∀ s i : RecallRow,
      (upsertRecallMerge s i).product_name =
        (match i.product_name with | some v => some v | none => s.product_name) ∧
      (upsertRecallMerge s i).source_country =
        (match i.source_country with | some v => some v | none => s.source_country) ∧
      (upsertRecallMerge s i).manufacturer =
        (match i.manufacturer with | some v => some v | none => s.manufacturer) ∧
      (upsertRecallMerge s i).distributor =
        (match i.distributor with | some v => some v | none => s.distributor) ∧
      (upsertRecallMerge s i).publish_date =
        (match i.publish_date with | some v => some v | none => s.publish_date) ∧
      (upsertRecallMerge s i).reason =
        (match i.reason with | some v => some v | none => s.reason) ∧
      (upsertRecallMerge s i).more_info =
        (match i.more_info with | some v => some v | none => s.more_info)) ∧
    (∀ s i : RecallRow, ∀ a b : String,
      i.scraped_at = some a → s.scraped_at = some b →
      (upsertRecallMerge s i).scraped_at = some (if textGt a b then a else b)) ∧
    (∀ s i : RecallRow, i.scraped_at = none →
      (upsertRecallMerge s i).scraped_at = s.scraped_at) ∧
    (∀ s i : RecallRow, ∀ a : String,
      i.scraped_at = some a → s.scraped_at = none →
      (upsertRecallMerge s i).scraped_at = some a) ∧
    ((upsertRecallMerge storedRecall incomingRecall).manufacturer = some "A" ∧
     (upsertRecallMerge storedRecall incomingRecall).scraped_at =
       incomingRecall.scraped_at ∧
     storedRecall.scraped_at = some "2026-01-06T00:00:00+00:00" ∧
     incomingRecall.scraped_at = some "2026-01-07T00:00:00+00:00" ∧
     textGt "2026-01-07T00:00:00+00:00" "2026-01-06T00:00:00+00:00" = true) := by
  refine ⟨fun s i => ⟨rfl, rfl, rfl⟩, ?_, ?_, ?_, ?_,
    ⟨rfl, by decide, rfl, rfl, by decide⟩⟩
  · intro s i
    refine ⟨?_, ?_, ?_, ?_, ?_, ?_, ?_⟩ <;>
      simp only [upsertRecallMerge, Option.orElse] <;>
      cases i.product_name <;> cases i.source_country <;> cases i.manufacturer <;>
      cases i.distributor <;> cases i.publish_date <;> cases i.reason <;>
      cases i.more_info <;> rfl
  · intro s i a b ha hb
    simp only [upsertRecallMerge, ha, hb, textGt]
    split <;> rfl
  · intro s i ha
    simp [upsertRecallMerge, ha]
  · intro s i a ha hb
    simp [upsertRecallMerge, ha, hb]

/-- Witness for C5's amended theorem: the `scraped_at` rule applied to the
concrete example rows. -/
theorem claim_C5_amended_witness :
    (upsertRecallMerge storedRecall incomingRecall).scraped_at =
      some (if textGt "2026-01-07T00:00:00+00:00" "2026-01-06T00:00:00+00:00"
            then "2026-01-07T00:00:00+00:00" else "2026-01-06T00:00:00+00:00") :=
  claim_C5_amended_upsert_df_policy.2.2.1 storedRecall incomingRecall
    "2026-01-07T00:00:00+00:00" "2026-01-06T00:00:00+00:00" rfl rfl

/-- **C2.** The Table Classifier applies exactly the column-count decision
rule: on a grid whose first row has at least 3 columns it produces the
spec's matrix extraction (headers from row 0, rows padded/truncated,
non-empty cells appended per key); a column count other than 2 and below 3
yields the empty mapping (as does an empty grid); and the 3-column Darzalex
example yields exactly the three expected key/value lists. -/
theorem claim_C2_table_classifier_decision_rule :
    (∀ (row0 : List String) (rest : List (List String)), 3 ≤ row0.length →
      parseNafdacRows (row0 :: rest) = matrixSpec row0 rest) ∧
    (∀ (row0 : List String) (rest : List (List String)),
      row0.length < 3 → row0.length ≠ 2 → parseNafdacRows (row0 :: rest) = []) ∧
    parseNafdacRows ([] : List (List String)) = [] ∧
    parseNafdacRows [["Product Name", "Batch Number", "Expiry Date"],
      ["Darzalex (Daratumumab) 1800mg/15 ml vial for SC Injection",
       "PKS1F01", "10-2026"]] =
      [("product_name",
        ["Darzalex (Daratumumab) 1800mg/15 ml vial for SC Injection"]),
       ("batch_number", ["PKS1F01"]),
       ("expiry_date", ["10-2026"])] := by
  refine ⟨?_, ?_, rfl, by decide⟩
  · intro row0 rest h3
    show (if 3 ≤ row0.length then parseMatrixTable row0 rest
          else if row0.length = 2 then parseKeyValueTable (row0 :: rest)
          else []) = _
    rw [if_pos h3]
    exact parseMatrixTable_eq_matrixSpec row0 rest
  · intro row0 rest h3 h2
    show (if 3 ≤ row0.length then parseMatrixTable row0 rest
          else if row0.length = 2 then parseKeyValueTable (row0 :: rest)
          else []) = _
    rw [if_neg (by omega), if_neg h2]

/-- Witness for C2: both decision branches applied to concrete grids. -/
theorem claim_C2_witness :
    parseNafdacRows [["Product", "Batch", "Expiry"], ["p", "b", "e"]] =
      matrixSpec ["Product", "Batch", "Expiry"] [["p", "b", "e"]] ∧
    parseNafdacRows [["single column"], ["x"]] = [] :=
  ⟨claim_C2_table_classifier_decision_rule.1 _ _ (by decide),
   claim_C2_table_classifier_decision_rule.2.1 _ _ (by decide) (by decide)⟩

/-! ## Grid-builder invariants (for C9 and C1). -/

/-- The prefill pass never changes a row's length. -/
theorem prefill_length (p : Pending) : ∀ row : Slots,
    (prefill p row).length = row.length := by
  induction p with
  | nil => intro row; rfl
  | cons e p ih =>
      intro row
      show (prefill p (if 0 < e.2.1 then row.set e.1 e.2.2 else row)).length =
        row.length
      rw [ih]
      split <;> simp

/-- Folding the colspan placement step never changes the row's length. -/
theorem foldPlaceOne_length (ncols : Nat) (cell : HCell) (ptr : Nat) :
    ∀ (js : List Nat) (sp : Slots × Pending),
      ((js.foldl (placeOne ncols cell ptr) sp).1).length = sp.1.length := by
  intro js
  induction js with
  | nil => intro sp; rfl
  | cons j js ih =>
      intro sp
      rw [List.foldl_cons, ih]
      rw [placeOne]
      split <;> simp

/-- Cell placement never changes a row's length. -/
theorem placeCells_length (ncols : Nat) : ∀ (cells : List HCell)
    (sp : Slots × Pending) (ptr : Nat),
    ((placeCells ncols cells sp ptr).1).length = sp.1.length := by
  intro cells
  induction cells with
  | nil => intro sp ptr; rfl
  | cons cell rest ih =>
      intro sp ptr
      rw [placeCells]
      split
      · rfl
      · rw [ih, placeSpan, foldPlaceOne_length]

/-- Every raw grid row has exactly `ncols` slots. -/
theorem buildRawAux_mem_length (ncols : Nat) : ∀ (rows : List HRow)
    (pd : Pending) (r : Slots), r ∈ (buildRawAux ncols pd rows).1 →
    r.length = ncols := by
  intro rows
  induction rows with
  | nil => intro pd r h; simp [buildRawAux] at h
  | cons tr rest ih =>
      intro pd r h
      rw [buildRawAux] at h
      rcases List.mem_cons.mp h with h1 | h2
      · subst h1
        rw [placeCells_length, prefill_length, List.length_replicate]
      · exact ih _ _ h2

/-- **C9.** `table_to_grid` returns a rectangular grid: every returned row
has length equal to the maximum colspan-weighted width over the table's
rows (`gridWidth`), and every returned row holds at least one non-empty
string (fully empty rows are filtered out). -/
theorem claim_C9_grid_rectangular_nonempty :
    ∀ (t : List HRow) (row : List String), row ∈ table_to_grid t →
      row.length = gridWidth t ∧ ∃ s ∈ row, s ≠ "" := by
  intro t row hmem
  cases t with
  | nil => simp [table_to_grid] at hmem
  | cons tr rest =>
      have hunfold : table_to_grid (tr :: rest) =
          if gridWidth (tr :: rest) = 0 then []
          else ((buildRaw (gridWidth (tr :: rest)) [] (tr :: rest)).map
            (fun r => r.map slotOut)).filter
            (fun rr => rr.any (fun s => s ≠ "")) := rfl
      rw [hunfold] at hmem
      by_cases h0 : gridWidth (tr :: rest) = 0
      · rw [if_pos h0] at hmem
        simp at hmem
      · rw [if_neg h0] at hmem
        obtain ⟨hmap, hkeep⟩ := List.mem_filter.mp hmem
        obtain ⟨r, hr, hrow⟩ := List.mem_map.mp hmap
        constructor
        · rw [← hrow, List.length_map]
          exact buildRawAux_mem_length _ _ _ _ hr
        · obtain ⟨s, hs, hss⟩ := List.any_eq_true.mp hkeep
          exact ⟨s, hs, by simpa using hss⟩

/-- A concrete table (one colspan-2 cell over a 2-cell row) for the C9
witness. -/
def rectWitnessTable : List HRow :=
  [[⟨some "P", 2, 1⟩], [⟨some "a", 1, 1⟩, ⟨some "b", 1, 1⟩]]

/-- Witness for C9: the invariant applied to a concrete row of a concrete
table. -/
theorem claim_C9_witness :
    (["P", "P"] : List String).length = gridWidth rectWitnessTable ∧
    ∃ s ∈ ["P", "P"], s ≠ "" :=
  claim_C9_grid_rectangular_nonempty rectWitnessTable ["P", "P"] (by decide)

/-! ## Rowspan carry-over (for C1). -/

/-- The table of the C1 counterexample: one cell with `rowspan=5` (text
`"R"`, landing at column 1 of the first row), followed by a row whose
first cell has `colspan=2`. -/
def rowspanCounterTable : List HRow :=
  [[⟨some "A", 1, 1⟩, ⟨some "R", 1, 5⟩, ⟨some "B", 1, 1⟩],
   [⟨some "X", 2, 1⟩, ⟨some "C", 1, 1⟩],
   [⟨some "D", 1, 1⟩, ⟨some "E", 1, 1⟩],
   [⟨some "F", 1, 1⟩, ⟨some "G", 1, 1⟩],
   [⟨some "H", 1, 1⟩, ⟨some "I", 1, 1⟩]]

/-- **C1 counterexample.**  In `rowspanCounterTable` exactly one cell
carries a rowspan other than 1 — the `rowspan=5` cell with text `"R"`,
which lands at column 1 of logical row 0 and spans all five logical rows —
yet the grid does not repeat its text through the column: row 1's
`colspan=2` cell overwrites the prefilled slot, so
`grid[1][1] = "X" ≠ "R" = grid[0][1]`. -/
theorem claim_C1_counterexample :
    (rowspanCounterTable.flatMap (fun r => r)).filter
        (fun cell => cell.rowspan ≠ 1) = [⟨some "R", 1, 5⟩] ∧
    table_to_grid rowspanCounterTable =
      [["A", "R", "B"], ["X", "X", "C"], ["D", "R", "E"],
       ["F", "R", "G"], ["H", "R", "I"]] ∧
    (table_to_grid rowspanCounterTable).map (fun r => r.getD 1 "") =
      ["R", "X", "R", "R", "R"] ∧
    ("R" : String) ≠ "X" := by
  exact ⟨by decide, by decide, by decide, by decide⟩

/-- Dict lookup distributes over the in-place update of a different key. -/
theorem pendingLookup_map_update (k c : Nat) (v : Nat × Option String)
    (hne : k ≠ c) :
    ∀ p : Pending,
      pendingLookup (p.map (fun e => if e.1 == k then (k, v.1, v.2) else e)) c =
        pendingLookup p c := by
  intro p
  induction p with
  | nil => rfl
  | cons e p ih =>
      simp only [List.map_cons]
      by_cases hek : e.1 = k
      · unfold pendingLookup
        rw [List.find?_cons_of_neg _ (by simp [hek, hne]),
          List.find?_cons_of_neg _ (by simp [hek, hne])]
        exact ih
      · by_cases hec : e.1 = c
        · unfold pendingLookup
          rw [List.find?_cons_of_pos _ (by rw [if_neg (by simp [hek])]; simp [hec]),
            List.find?_cons_of_pos _ (by simp [hec])]
          simp [hek]
        · unfold pendingLookup
          rw [List.find?_cons_of_neg _ (by simp [hek, hec]),
            List.find?_cons_of_neg _ (by simp [hec])]
          exact ih

/-- Dict lookup ignores an appended entry with a different key. -/
theorem pendingLookup_append_ne (k c : Nat) (v : Nat × Option String)
    (hne : k ≠ c) :
    ∀ p : Pending,
      pendingLookup (p ++ [(k, v.1, v.2)]) c = pendingLookup p c := by
  intro p
  induction p with
  | nil =>
      unfold pendingLookup
      rw [List.nil_append, List.find?_cons_of_neg _ (by simp [hne])]
  | cons e p ih =>
      rw [List.cons_append]
      by_cases hec : e.1 = c
      · unfold pendingLookup
        rw [List.find?_cons_of_pos _ (by simp [hec]),
          List.find?_cons_of_pos _ (by simp [hec])]
      · unfold pendingLookup
        rw [List.find?_cons_of_neg _ (by simp [hec]),
          List.find?_cons_of_neg _ (by simp [hec])]
        exact ih

/-- Dict lookup is unchanged by assigning a different key. -/
theorem pendingLookup_set_ne (p : Pending) (k c : Nat)
    (v : Nat × Option String) (hne : k ≠ c) :
    pendingLookup (pendingSet p k v) c = pendingLookup p c := by
  rw [pendingSet]
  split
  · exact pendingLookup_map_update k c v hne p
  · exact pendingLookup_append_ne k c v hne p

/-- A key absent from the dict looks up to nothing. -/
theorem pendingLookup_not_mem (c : Nat) :
    ∀ p : Pending, c ∉ p.map Prod.fst → pendingLookup p c = none := by
  intro p
  induction p with
  | nil => intro _; rfl
  | cons e p ih =>
      intro hmem
      have h1 : (e.1 == c) = false := by
        simp only [List.map_cons, List.mem_cons, not_or] at hmem
        simp [Ne.symm hmem.1]
      simp only [pendingLookup, List.find?_cons, h1]
      exact ih (by
        simp only [List.map_cons, List.mem_cons, not_or] at hmem
        exact hmem.2)

/-- The keys of the stepped dict form a sublist of the original keys. -/
theorem stepPending_keys_sublist (p : Pending) :
    ((stepPending p).map Prod.fst).Sublist (p.map Prod.fst) := by
  induction p with
  | nil => exact List.Sublist.refl _
  | cons e p ih =>
      by_cases h2 : 2 ≤ e.2.1
      · have hstep : stepPending (e :: p) =
            (e.1, e.2.1 - 1, e.2.2) :: stepPending p := by
          simp [stepPending, List.filterMap_cons, h2]
        rw [hstep, List.map_cons, List.map_cons]
        exact ih.cons₂ e.1
      · have hstep : stepPending (e :: p) = stepPending p := by
          simp [stepPending, List.filterMap_cons, h2]
        rw [hstep, List.map_cons]
        exact ih.cons e.1

/-- `pendingSet` keeps the key list duplicate-free. -/
theorem pendingSet_nodup (p : Pending) (k : Nat) (v : Nat × Option String)
    (h : (p.map Prod.fst).Nodup) :
    ((pendingSet p k v).map Prod.fst).Nodup := by
  rw [pendingSet]
  split
  · have : (p.map (fun e => if e.1 == k then (k, v.1, v.2) else e)).map Prod.fst =
        p.map Prod.fst := by
      rw [List.map_map]
      apply List.map_congr_left
      intro e _
      by_cases hek : e.1 = k
      · simp [hek]
      · simp [hek]
    rw [this]
    exact h
  · rename_i hany
    have hnot : k ∉ p.map Prod.fst := by
      intro hk
      obtain ⟨e, he, hek⟩ := List.mem_map.mp hk
      exact hany (List.any_eq_true.mpr ⟨e, he, by simp [hek]⟩)
    simp only [List.map_append, List.map_cons, List.map_nil]
    simp [List.nodup_append, h, hnot]

/-- Stepping the dict keeps the key list duplicate-free. -/
theorem stepPending_nodup (p : Pending) (h : (p.map Prod.fst).Nodup) :
    ((stepPending p).map Prod.fst).Nodup :=
  (stepPending_keys_sublist p).nodup h

/-- The colspan placement fold keeps the key list duplicate-free. -/
theorem foldPlaceOne_nodup (ncols : Nat) (cell : HCell) (ptr : Nat) :
    ∀ (js : List Nat) (sp : Slots × Pending),
      (sp.2.map Prod.fst).Nodup →
      (((js.foldl (placeOne ncols cell ptr) sp).2).map Prod.fst).Nodup := by
  intro js
  induction js with
  | nil => intro sp h; exact h
  | cons j js ih =>
      intro sp h
      rw [List.foldl_cons]
      apply ih
      rw [placeOne]
      split
      · split
        · exact pendingSet_nodup _ _ _ h
        · exact h
      · exact h

/-- Cell placement keeps the key list duplicate-free. -/
theorem placeCells_nodup (ncols : Nat) : ∀ (cells : List HCell)
    (sp : Slots × Pending) (ptr : Nat),
    (sp.2.map Prod.fst).Nodup →
    (((placeCells ncols cells sp ptr).2).map Prod.fst).Nodup := by
  intro cells
  induction cells with
  | nil => intro sp ptr h; exact h
  | cons cell rest ih =>
      intro sp ptr h
      rw [placeCells]
      split
      · exact h
      · exact ih _ _ (by rw [placeSpan]; exact foldPlaceOne_nodup _ _ _ _ _ h)

/-- Prefill leaves a column untouched when no pending entry covers it. -/
theorem prefill_not_mem (c : Nat) : ∀ (p : Pending) (row : Slots),
    (∀ e ∈ p, e.1 ≠ c) → (prefill p row).get? c = row.get? c := by
  intro p
  induction p with
  | nil => intro row _; rfl
  | cons e p ih =>
      intro row h
      show (prefill p (if 0 < e.2.1 then row.set e.1 e.2.2 else row)).get? c =
        row.get? c
      rw [ih _ (fun x hx => h x (List.mem_cons_of_mem e hx))]
      split
      · simp [List.get?_eq_getElem?,
          List.getElem?_set_ne (h e (List.mem_cons_self e p))]
      · rfl

/-- Prefill writes the pending value into its column. -/
theorem prefill_get (c n : Nat) (v : Option String) :
    ∀ (p : Pending) (row : Slots),
      (p.map Prod.fst).Nodup →
      pendingLookup p c = some (n, v) → 0 < n → c < row.length →
      (prefill p row).get? c = some v := by
  intro p
  induction p with
  | nil =>
      intro row _ hlk
      exact absurd hlk (by simp [pendingLookup])
  | cons e p ih =>
      intro row hnd hlk hn hc
      have hnd1 : e.1 ∉ p.map Prod.fst ∧ (p.map Prod.fst).Nodup := by
        rw [List.map_cons] at hnd
        exact List.nodup_cons.mp hnd
      by_cases hec : e.1 = c
      · have hv : e.2 = (n, v) := by
          unfold pendingLookup at hlk
          rw [List.find?_cons_of_pos _ (by simp [hec])] at hlk
          simpa using hlk
        have hnot : ∀ x ∈ p, x.1 ≠ c := by
          intro x hx hxc
          exact hnd1.1 (hec ▸ hxc ▸ List.mem_map_of_mem Prod.fst hx)
        show (prefill p (if 0 < e.2.1 then row.set e.1 e.2.2 else row)).get? c =
          some v
        rw [prefill_not_mem c p _ hnot, if_pos (by rw [hv]; exact hn)]
        rw [hec, show e.2.2 = v from by rw [hv]]
        simp [List.get?_eq_getElem?, List.getElem?_set_self, hc]
      · have hlk2 : pendingLookup p c = some (n, v) := by
          unfold pendingLookup at hlk ⊢
          rwa [List.find?_cons_of_neg _ (by simp [hec])] at hlk
        show (prefill p (if 0 < e.2.1 then row.set e.1 e.2.2 else row)).get? c =
          some v
        have hlen : (if 0 < e.2.1 then row.set e.1 e.2.2 else row).length =
            row.length := by
          split <;> simp
        exact ih _ hnd1.2 hlk2 hn (hlen ▸ hc)

/-- How the prefill pass steps the pending dict at one key: the count
decrements, and an exhausted entry disappears. -/
theorem pendingLookup_step (c : Nat) :
    ∀ (p : Pending), (p.map Prod.fst).Nodup →
      ∀ (n : Nat) (v : Option String), pendingLookup p c = some (n, v) →
      pendingLookup (stepPending p) c =
        if 2 ≤ n then some (n - 1, v) else none := by
  intro p
  induction p with
  | nil =>
      intro _ n v hlk
      exact absurd hlk (by simp [pendingLookup])
  | cons e p ih =>
      intro hnd n v hlk
      have hnd1 : e.1 ∉ p.map Prod.fst ∧ (p.map Prod.fst).Nodup := by
        rw [List.map_cons] at hnd
        exact List.nodup_cons.mp hnd
      by_cases hec : e.1 = c
      · have hv : e.2 = (n, v) := by
          unfold pendingLookup at hlk
          rw [List.find?_cons_of_pos _ (by simp [hec])] at hlk
          simpa using hlk
        by_cases h2 : 2 ≤ n
        · have hstep : stepPending (e :: p) =
              (e.1, e.2.1 - 1, e.2.2) :: stepPending p := by
            simp [stepPending, List.filterMap_cons, hv, h2]
          rw [hstep]
          unfold pendingLookup
          rw [List.find?_cons_of_pos _ (by simp [hec]), if_pos h2]
          simp [hv]
        · have hstep : stepPending (e :: p) = stepPending p := by
            simp [stepPending, List.filterMap_cons, hv, h2]
          rw [hstep, if_neg h2]
          have hcnot : c ∉ p.map Prod.fst := fun hmem => hnd1.1 (hec ▸ hmem)
          exact pendingLookup_not_mem c _
            (fun hmem => hcnot ((stepPending_keys_sublist p).subset hmem))
      · have hlk2 : pendingLookup p c = some (n, v) := by
          unfold pendingLookup at hlk ⊢
          rwa [List.find?_cons_of_neg _ (by simp [hec])] at hlk
        by_cases h2 : 2 ≤ e.2.1
        · have hstep : stepPending (e :: p) =
              (e.1, e.2.1 - 1, e.2.2) :: stepPending p := by
            simp [stepPending, List.filterMap_cons, h2]
          rw [hstep]
          have hrec := ih hnd1.2 n v hlk2
          unfold pendingLookup at hrec ⊢
          rw [List.find?_cons_of_neg _ (by simp [hec])]
          exact hrec
        · have hstep : stepPending (e :: p) = stepPending p := by
            simp [stepPending, List.filterMap_cons, h2]
          rw [hstep]
          exact ih hnd1.2 n v hlk2

/-- The skip loop lands either past its fuel or on a non-filled slot. -/
theorem skipFilledGo_spec (row : Slots) :
    ∀ (fuel q : Nat), skipFilledGo row fuel q = q + fuel ∨
      ∀ x : String, row.get? (skipFilledGo row fuel q) ≠ some (some x) := by
  intro fuel
  induction fuel with
  | zero => intro q; left; rfl
  | succ fuel ih =>
      intro q
      cases hq : row.get? q with
      | none =>
          have hgo : skipFilledGo row (fuel + 1) q = q := by
            simp only [skipFilledGo, hq]
          right
          intro x
          rw [hgo, hq]
          simp
      | some o =>
          cases o with
          | none =>
              have hgo : skipFilledGo row (fuel + 1) q = q := by
                simp only [skipFilledGo, hq]
              right
              intro x
              rw [hgo, hq]
              simp
          | some y =>
              have hgo : skipFilledGo row (fuel + 1) q =
                  skipFilledGo row fuel (q + 1) := by
                simp only [skipFilledGo, hq]
              rw [hgo]
              rcases ih (q + 1) with h | h
              · left
                rw [h]
                omega
              · right
                exact h

/-- Placing one colspan-1 (or colspan-0) cell at a position other than `c`
does not disturb a filled slot at column `c` nor the pending entry for
`c`. -/
theorem placeSpan_preserve (ncols : Nat) (cell : HCell) (ptr c : Nat)
    (s : String) (hcol : cell.colspan ≤ 1) (hne : ptr ≠ c)
    (sp : Slots × Pending) (hslot : sp.1.get? c = some (some s)) :
    (placeSpan ncols cell ptr sp).1.get? c = some (some s) ∧
    pendingLookup (placeSpan ncols cell ptr sp).2 c = pendingLookup sp.2 c := by
  rw [placeSpan]
  rcases Nat.le_one_iff_eq_zero_or_eq_one.mp hcol with h0 | h1
  · rw [h0]
    exact ⟨hslot, rfl⟩
  · rw [h1]
    have hr1 : List.range 1 = [0] := rfl
    simp only [hr1, List.foldl_cons, List.foldl_nil]
    rw [placeOne]
    split
    · constructor
      · simp only [Nat.add_zero]
        rw [List.get?_eq_getElem?, List.getElem?_set_ne hne,
          ← List.get?_eq_getElem?]
        exact hslot
      · show pendingLookup (if 1 < cell.rowspan then
            pendingSet sp.2 (ptr + 0) (cell.rowspan - 1, cell.text)
          else sp.2) c = pendingLookup sp.2 c
        split
        · exact pendingLookup_set_ne sp.2 (ptr + 0) c _ (by omega)
        · rfl
    · exact ⟨hslot, rfl⟩

/-- Placing a row of colspan-1 cells does not disturb a filled slot at
column `c` nor the pending entry for `c`. -/
theorem placeCells_preserve (ncols c : Nat) (s : String) :
    ∀ (cells : List HCell) (sp : Slots × Pending) (ptr : Nat),
      (∀ cell ∈ cells, cell.colspan ≤ 1) →
      sp.1.get? c = some (some s) →
      (placeCells ncols cells sp ptr).1.get? c = some (some s) ∧
      pendingLookup (placeCells ncols cells sp ptr).2 c =
        pendingLookup sp.2 c := by
  intro cells
  induction cells with
  | nil => intro sp ptr _ hslot; exact ⟨hslot, rfl⟩
  | cons cell rest ih =>
      intro sp ptr hcol hslot
      rw [placeCells]
      split
      · exact ⟨hslot, rfl⟩
      · rename_i hlt
        have hplt : skipFilled ncols sp.1 ptr < ncols := by omega
        have hpne : skipFilled ncols sp.1 ptr ≠ c := by
          rcases skipFilledGo_spec sp.1 (ncols - ptr) ptr with h | h
          · exact absurd hplt (by rw [skipFilled, h]; omega)
          · intro heq
            rw [skipFilled] at heq
            exact h s (heq.symm ▸ hslot)
        have hsp := placeSpan_preserve ncols cell (skipFilled ncols sp.1 ptr) c
          s (hcol cell (List.mem_cons_self cell rest)) hpne sp hslot
        have hrec := ih _ (skipFilled ncols sp.1 ptr + cell.colspan)
          (fun x hx => hcol x (List.mem_cons_of_mem cell hx)) hsp.1
        exact ⟨hrec.1, hrec.2.trans hsp.2⟩

/-- The pending dict stays duplicate-free along the whole row loop. -/
theorem buildRawAux_nodup (ncols : Nat) : ∀ (rows : List HRow) (pd : Pending),
    (pd.map Prod.fst).Nodup →
    (((buildRawAux ncols pd rows).2).map Prod.fst).Nodup := by
  intro rows
  induction rows with
  | nil => intro pd h; exact h
  | cons tr rest ih =>
      intro pd h
      rw [buildRawAux]
      exact ih _ (placeCells_nodup ncols tr _ 0 (stepPending_nodup pd h))

/-- **Rowspan carry.**  If the pending dict registers `n` remaining rows of
text `s` at column `c`, then — as long as the next `n` physical rows carry
only colspan-1 cells — each of the next `n` raw grid rows holds `some s` at
column `c`. -/
theorem buildRaw_carry (ncols c : Nat) (s : String) (hc : c < ncols) :
    ∀ (rows : List HRow) (pd : Pending) (n : Nat),
      (pd.map Prod.fst).Nodup →
      pendingLookup pd c = some (n, some s) →
      (∀ r ∈ rows.take n, ∀ cell ∈ r, cell.colspan ≤ 1) →
      ∀ k, k < n → k < rows.length →
        ((buildRawAux ncols pd rows).1.get? k).bind (fun r => r.get? c) =
          some (some s) := by
  intro rows
  induction rows with
  | nil =>
      intro pd n _ _ _ k _ hk
      simp at hk
  | cons tr rest ih =>
      intro pd n hnd hlk hcols k hkn hklen
      have h0n : 0 < n := Nat.lt_of_le_of_lt (Nat.zero_le k) hkn
      have htr : ∀ cell ∈ tr, cell.colspan ≤ 1 := by
        intro cell hcell
        refine hcols tr ?_ cell hcell
        cases n with
        | zero => omega
        | succ m => simp [List.take_succ_cons]
      have hrow0 : (prefill pd (List.replicate ncols none)).get? c =
          some (some s) :=
        prefill_get c n (some s) pd _ hnd hlk h0n
          (by simpa using hc)
      have hsp := placeCells_preserve ncols c s tr
        (prefill pd (List.replicate ncols none), stepPending pd) 0 htr hrow0
      rw [buildRawAux]
      cases k with
      | zero =>
          simpa using hsp.1
      | succ k =>
          have h2n : 2 ≤ n := by omega
          have hlk1 : pendingLookup (stepPending pd) c = some (n - 1, some s) := by
            rw [pendingLookup_step c pd hnd n (some s) hlk, if_pos h2n]
          have hlk2 := hsp.2.trans hlk1
          have hnd2 := placeCells_nodup ncols tr
            (prefill pd (List.replicate ncols none), stepPending pd) 0
            (stepPending_nodup pd hnd)
          have hcols2 : ∀ r ∈ rest.take (n - 1), ∀ cell ∈ r,
              cell.colspan ≤ 1 := by
            intro r hr
            refine hcols r ?_
            cases n with
            | zero => omega
            | succ m =>
                simp only [List.take_succ_cons, List.mem_cons]
                right
                simpa using hr
          have := ih _ (n - 1) hnd2 hlk2 hcols2 k (by omega) (by simpa using hklen)
          simpa using this

/-- The row loop distributes over list append, threading the pending
state. -/
theorem buildRawAux_append (ncols : Nat) : ∀ (xs ys : List HRow) (pd : Pending),
    buildRawAux ncols pd (xs ++ ys) =
      ((buildRawAux ncols pd xs).1 ++
        (buildRawAux ncols (buildRawAux ncols pd xs).2 ys).1,
       (buildRawAux ncols (buildRawAux ncols pd xs).2 ys).2) := by
  intro xs
  induction xs with
  | nil => intro ys pd; simp [buildRawAux]
  | cons tr rest ih =>
      intro ys pd
      rw [List.cons_append]
      show (_ :: (buildRawAux ncols _ (rest ++ ys)).1,
        (buildRawAux ncols _ (rest ++ ys)).2) = _
      rw [ih]
      rw [buildRawAux]
      simp

/-- One raw row per physical row. -/
theorem buildRawAux_length (ncols : Nat) : ∀ (rows : List HRow) (pd : Pending),
    (buildRawAux ncols pd rows).1.length = rows.length := by
  intro rows
  induction rows with
  | nil => intro pd; rfl
  | cons tr rest ih =>
      intro pd
      rw [buildRawAux]
      simp [ih]

/-- Unfolding of `table_to_grid` on a non-empty table. -/
theorem table_to_grid_ne_nil (t : List HRow) (h : t ≠ []) :
    table_to_grid t = if gridWidth t = 0 then []
      else ((buildRaw (gridWidth t) [] t).map (fun r => r.map slotOut)).filter
        (fun rr => rr.any (fun s => s ≠ "")) := by
  cases t with
  | nil => exact absurd rfl h
  | cons a l => rfl

/-- **C1 amended.**  When the grid builder's pending-rowspan state right
after some physical row maps column `c` to four remaining rows of text `s`
— exactly the state a cell with `rowspan=5` and text `s` placed at column
`c` in that row registers — and that row's raw slots hold `some s` at `c`,
then provided (i) at least four further physical rows follow, (ii) every
cell of those four rows has colspan at most 1 (so no colspan placement
overwrites the spanned column, ruling out the counterexample), and (iii)
the cell's stripped text is non-empty (so none of the five spanned rows is
dropped as fully empty), the returned grid repeats the stripped text at
column `c` in five consecutive logical rows. -/
theorem claim_C1_amended_rowspan_carry (pre post : List HRow) (c : Nat)
    (s : String) (A : List Slots) (lastRow : Slots)
    (hpre : (buildRawAux (gridWidth (pre ++ post)) [] pre).1 = A ++ [lastRow])
    (hlast : lastRow.get? c = some (some s))
    (hpend : pendingLookup (buildRawAux (gridWidth (pre ++ post)) [] pre).2 c =
      some (4, some s))
    (hcols : ∀ r ∈ post.take 4, ∀ cell ∈ r, cell.colspan ≤ 1)
    (hlen : 4 ≤ post.length)
    (hs : pyStrip s ≠ "") :
    ∃ ridx, ∀ k, k ≤ 4 →
      ((table_to_grid (pre ++ post)).get? (ridx + k)).bind
        (fun row => row.get? c) = some (pyStrip s) := by
  have hpostne : post ≠ [] := by
    intro h
    rw [h] at hlen
    simp at hlen
  have htne : pre ++ post ≠ [] := by
    intro h
    exact hpostne (List.append_eq_nil.mp h).2
  set N := gridWidth (pre ++ post) with hN
  have hlastmem : lastRow ∈ (buildRawAux N [] pre).1 := by
    rw [hpre]
    exact List.mem_append_right A (List.mem_singleton.mpr rfl)
  have hlastlen : lastRow.length = N :=
    buildRawAux_mem_length N pre [] lastRow hlastmem
  have hcN : c < N := by
    have h1 := (List.get?_eq_some.mp hlast).1
    omega
  have hN0 : ¬N = 0 := by omega
  have hndmid : (((buildRawAux N [] pre).2).map Prod.fst).Nodup :=
    buildRawAux_nodup N pre [] (by simp)
  have hcarry := buildRaw_carry N c s hcN post (buildRawAux N [] pre).2 4
    hndmid hpend hcols
  set RP := (buildRawAux N (buildRawAux N [] pre).2 post).1 with hRP
  have hRPlen : RP.length = post.length := buildRawAux_length N post _
  have hsplit : buildRaw N [] (pre ++ post) = (A ++ [lastRow]) ++ RP := by
    rw [buildRaw, buildRawAux_append, hpre]
  set B := lastRow :: RP.take 4 with hB
  have hraws : buildRaw N [] (pre ++ post) = A ++ (B ++ RP.drop 4) := by
    rw [hsplit, hB]
    rw [List.append_assoc]
    refine congrArg (A ++ ·) ?_
    rw [List.singleton_append]
    refine congrArg (lastRow :: ·) ?_
    exact (List.take_append_drop 4 RP).symm
  have hBslot : ∀ b ∈ B, b.get? c = some (some s) := by
    intro b hb
    rcases List.mem_cons.mp hb with h | h
    · rw [h]
      exact hlast
    · rw [List.mem_take_iff_getElem] at h
      obtain ⟨i, hi, hbi⟩ := h
      have hi4 : i < 4 := by omega
      have hiRP : i < RP.length := by omega
      have hgot : RP.get? i = some b := by
        rw [List.get?_eq_getElem?, List.getElem?_eq_getElem hiRP]
        exact congrArg some (by simpa using hbi)
      have hcv := hcarry i hi4 (by omega)
      rw [hgot] at hcv
      simpa using hcv
  have hkeep : ∀ rr ∈ B.map (fun r => r.map slotOut),
      rr.any (fun s2 => s2 ≠ "") := by
    intro rr hrr
    obtain ⟨b, hb, hbrr⟩ := List.mem_map.mp hrr
    have hslotc : rr.get? c = some (pyStrip s) := by
      rw [← hbrr, List.get?_map, hBslot b hb]
      rfl
    exact List.any_eq_true.mpr ⟨pyStrip s, List.get?_mem hslotc, by simpa using hs⟩
  rw [table_to_grid_ne_nil _ htne]
  rw [if_neg hN0, hraws, List.map_append, List.map_append, List.filter_append,
    List.filter_append, List.filter_eq_self.mpr hkeep]
  refine ⟨((A.map (fun r => r.map slotOut)).filter
    (fun rr => rr.any (fun s2 => s2 ≠ ""))).length, ?_⟩
  intro k hk
  rw [List.get?_append_right (by omega)]
  have hsub : ((A.map (fun r => r.map slotOut)).filter
      (fun rr => rr.any (fun s2 => s2 ≠ ""))).length + k -
    ((A.map (fun r => r.map slotOut)).filter
      (fun rr => rr.any (fun s2 => s2 ≠ ""))).length = k := by omega
  rw [hsub]
  have hBlen : (B.map (fun r => r.map slotOut)).length = 5 := by
    rw [List.length_map, hB]
    simp only [List.length_cons, List.length_take]
    omega
  rw [List.get?_append (by omega)]
  have hklen : k < B.length := by
    have := hBlen
    rw [List.length_map] at this
    omega
  have hBk : B.get? k = some (B.get ⟨k, hklen⟩) := by
    rw [List.get?_eq_getElem?, List.getElem?_eq_getElem hklen]
    rfl
  rw [List.get?_map, hBk]
  have hb2 := hBslot (B.get ⟨k, hklen⟩) (List.get_mem B k hklen)
  show ((B.get ⟨k, hklen⟩).map slotOut).get? c = some (pyStrip s)
  rw [List.get?_map, hb2]
  rfl

/-- Physical rows of the table used to witness C1's amended theorem: a
first row placing a `rowspan=5` cell at column 0, then four rows of
colspan-1 cells. -/
def carryWitnessPre : List HRow := [[⟨some "P", 1, 5⟩, ⟨some "b1", 1, 1⟩]]

/-- The four spanned rows of the C1 witness table. -/
def carryWitnessPost : List HRow :=
  [[⟨some "b2", 1, 1⟩], [⟨some "b3", 1, 1⟩], [⟨some "b4", 1, 1⟩],
   [⟨some "b5", 1, 1⟩]]

/-- Witness for C1's amended theorem: the carry property instantiated on
the concrete 5-row table. -/
theorem claim_C1_amended_witness :
    ∃ ridx, ∀ k, k ≤ 4 →
      ((table_to_grid (carryWitnessPre ++ carryWitnessPost)).get? (ridx + k)).bind
        (fun row => row.get? 0) = some (pyStrip "P") :=
  claim_C1_amended_rowspan_carry carryWitnessPre carryWitnessPost 0 "P"
    [] [some "P", some "b1"]
    (by decide) (by decide) (by decide)
    (by decide) (by decide) (by decide)

end Dashboard
